import Mathlib

/-!
Verification of the grant-documentation extraction pipeline
(`utils.py`, `documentation_analyzer.py`).

Python strings are modelled as `List Char`; Python's `re` substitutions are
modelled by explicit left-to-right scanners with the same leftmost,
non-overlapping, greedy semantics as the concrete patterns used in the
source.  The NLTK sentence tokenizer (an external library) is a parameter
of every function that calls it.
-/

set_option maxRecDepth 100000

/- The batteries library ships rational arithmetic marked irreducible,
which blocks `decide` from evaluating the similarity predicate's rational
comparisons on concrete inputs; re-open it (the kernel unfolds these
definitions either way). -/
set_option allowUnsafeReducibility true in
attribute [semireducible] Rat.inv Rat.mul Rat.div Rat.sub Rat.add Rat.neg Rat.blt

/-- Python `str` as a list of characters. -/
abbrev Str := List Char

/-- Shorthand turning a Lean string literal into the `Str` model. -/
def str (s : String) : Str := s.data

/-- Python `str.lower()` on the Latin repertoire this pipeline processes:
ASCII `A`-`Z` and the Latin-1 uppercase block `À`-`Þ` (minus `×`) move down
by 32 code points; every other character is fixed. -/
def pyLowerChar (c : Char) : Char :=
  if 'A' ≤ c ∧ c ≤ 'Z' then Char.ofNat (c.toNat + 32)
  else if 0xC0 ≤ c.toNat ∧ c.toNat ≤ 0xDE ∧ c.toNat ≠ 0xD7 then Char.ofNat (c.toNat + 32)
  else c

/-- Python `s.lower()`. -/
def lowerStr (s : Str) : Str := s.map pyLowerChar

/-- `startsWith hay pat`: `pat` is an initial segment of `hay`. -/
def startsWith : Str → Str → Bool
  | _, [] => true
  | [], _ :: _ => false
  | c :: cs, p :: ps => c = p && startsWith cs ps

/-- Python's substring test `pat in hay`. -/
def containsStr : Str → Str → Bool
  | [], pat => startsWith [] pat
  | c :: t, pat => startsWith (c :: t) pat || containsStr t pat

/-- `pat` occurs as a contiguous substring of `hay`. -/
def Occurs (pat hay : Str) : Prop := ∃ a b, hay = a ++ pat ++ b

theorem startsWith_iff (hay pat : Str) :
    startsWith hay pat = true ↔ ∃ r, hay = pat ++ r := by
  induction pat generalizing hay with
  | nil => simp [startsWith]
  | cons p ps ih =>
    cases hay with
    | nil => simp [startsWith]
    | cons c cs =>
      simp only [startsWith, Bool.and_eq_true, decide_eq_true_eq, ih, List.cons_append]
      constructor
      · rintro ⟨rfl, r, rfl⟩; exact ⟨r, rfl⟩
      · rintro ⟨r, h⟩; cases h; exact ⟨rfl, r, rfl⟩

theorem containsStr_iff (hay pat : Str) :
    containsStr hay pat = true ↔ Occurs pat hay := by
  induction hay with
  | nil =>
    simp only [containsStr, startsWith_iff, Occurs]
    constructor
    · rintro ⟨r, h⟩; exact ⟨[], r, by simpa using h⟩
    · rintro ⟨a, b, h⟩
      have h2 : a = [] ∧ pat = [] ∧ b = [] := by simpa using h.symm
      obtain ⟨rfl, rfl, rfl⟩ := h2
      exact ⟨[], by simp⟩
  | cons c t ih =>
    simp only [containsStr, Bool.or_eq_true, startsWith_iff, ih, Occurs]
    constructor
    · rintro (⟨r, h⟩ | ⟨a, b, h⟩)
      · exact ⟨[], r, by simpa using h⟩
      · exact ⟨c :: a, b, by simp [h]⟩
    · rintro ⟨a, b, h⟩
      cases a with
      | nil => exact Or.inl ⟨b, by simpa using h⟩
      | cons a0 as =>
        simp only [List.cons_append] at h
        cases h
        exact Or.inr ⟨as, b, rfl⟩

theorem occurs_trans {p s t : Str} (h1 : Occurs p s) (h2 : Occurs s t) : Occurs p t := by
  obtain ⟨a, b, rfl⟩ := h1
  obtain ⟨x, y, rfl⟩ := h2
  exact ⟨x ++ a, b ++ y, by simp⟩

theorem containsStr_trans {p s t : Str} (h1 : containsStr s p = true)
    (h2 : containsStr t s = true) : containsStr t p = true :=
  (containsStr_iff t p).mpr (occurs_trans ((containsStr_iff s p).mp h1) ((containsStr_iff t s).mp h2))

theorem occurs_append_left {p x : Str} (y : Str) (h : Occurs p x) : Occurs p (x ++ y) := by
  obtain ⟨a, b, rfl⟩ := h; exact ⟨a, b ++ y, by simp⟩

theorem occurs_append_right {p x : Str} (y : Str) (h : Occurs p x) : Occurs p (y ++ x) := by
  obtain ⟨a, b, rfl⟩ := h; exact ⟨y ++ a, b, by simp⟩

theorem occurs_ne_nil {p x : Str} (hp : p ≠ []) (h : Occurs p x) : x ≠ [] := by
  obtain ⟨a, b, rfl⟩ := h
  intro h1
  have h2 : a = [] ∧ p = [] ∧ b = [] := by simpa using h1
  exact hp h2.2.1

/-! ## Whitespace and character classes (`re` on Python `str`) -/

/-- Python `\s` (and `str.strip()`'s whitespace) on `str`: ASCII whitespace
plus the Unicode space characters. -/
def isPySpace (c : Char) : Bool :=
  c = ' ' || c = '\t' || c = '\n' || c = '\r' || c.toNat = 0x0B || c.toNat = 0x0C ||
  (0x1C ≤ c.toNat && c.toNat ≤ 0x1F) || c.toNat = 0x85 || c.toNat = 0xA0 ||
  c.toNat = 0x1680 || (0x2000 ≤ c.toNat && c.toNat ≤ 0x200A) ||
  c.toNat = 0x2028 || c.toNat = 0x2029 || c.toNat = 0x202F || c.toNat = 0x205F ||
  c.toNat = 0x3000

/-- Python `\w` on the Latin repertoire this pipeline processes: ASCII
alphanumerics, underscore, Latin-1 letters and Latin Extended-A. -/
def isWordChar (c : Char) : Bool :=
  ('a' ≤ c && c ≤ 'z') || ('A' ≤ c && c ≤ 'Z') || ('0' ≤ c && c ≤ '9') || c = '_' ||
  (0xC0 ≤ c.toNat && c.toNat ≤ 0xFF && c.toNat ≠ 0xD7 && c.toNat ≠ 0xF7) ||
  (0x100 ≤ c.toNat && c.toNat ≤ 0x17F)

/-- `re.sub(r'\s+', ' ', text)`: each maximal whitespace run becomes one space. -/
def collapseWsGo : Nat → Str → Str
  | 0, l => l
  | _ + 1, [] => []
  | fuel + 1, c :: t =>
    if isPySpace c then ' ' :: collapseWsGo fuel (t.dropWhile (fun d => isPySpace d))
    else c :: collapseWsGo fuel t

def collapseWs (l : Str) : Str := collapseWsGo l.length l

/-- Python `str.strip()`. -/
def pyStrip (l : Str) : Str :=
  ((l.dropWhile fun c => isPySpace c).reverse.dropWhile fun c => isPySpace c).reverse

/-- `utils.normalize_whitespace`: collapse whitespace runs, then strip. -/
def normalize_whitespace : Option Str → Str
  | none => []
  | some t => pyStrip (collapseWs t)

/-! ## The steps of `utils.clean_text` -/

/-- Modelled as the identity map: the source calls
`unicodedata.normalize('NFKC', text)` from the Python standard library (an
external collaborator); on the composed Latin text this pipeline processes
NFKC is the identity, and the development models it as such. -/
def nfkcNormalize (t : Str) : Str := t

/-- The chained `str.replace` calls mapping curly quotes, dashes and the
non-breaking space to plain equivalents (all single-character, disjoint). -/
def glyphFix (c : Char) : Char :=
  if c.toNat = 0x2018 || c.toNat = 0x2019 then '\''
  else if c.toNat = 0x201C || c.toNat = 0x201D then '"'
  else if c.toNat = 0x2013 || c.toNat = 0x2014 then '-'
  else if c.toNat = 0xA0 then ' '
  else c

/-- `re.sub(r'•\s*([•\-*])\s*', '• ', text)`: collapse doubled bullets. -/
def bulletFixGo : Nat → Str → Str
  | 0, l => l
  | _ + 1, [] => []
  | fuel + 1, c :: t =>
    if c = '•' then
      match t.dropWhile (fun d => isPySpace d) with
      | d :: r2 =>
        if d = '•' || d = '-' || d = '*' then
          '•' :: ' ' :: bulletFixGo fuel (r2.dropWhile (fun e => isPySpace e))
        else '•' :: bulletFixGo fuel t
      | [] => '•' :: bulletFixGo fuel t
    else c :: bulletFixGo fuel t

def bulletFix (l : Str) : Str := bulletFixGo l.length l

/-- `[A-Z]`. -/
def isUpperAZ (c : Char) : Bool := 'A' ≤ c && c ≤ 'Z'

/-- `re.sub(r'([.!?])\s+([A-Z])', r'\1 \2', text)`. -/
def sentSpaceGo : Nat → Str → Str
  | 0, l => l
  | _ + 1, [] => []
  | fuel + 1, c :: t =>
    if c = '.' || c = '!' || c = '?' then
      if (t.takeWhile fun d => isPySpace d) ≠ [] then
        match t.dropWhile (fun d => isPySpace d) with
        | u :: r2 =>
          if isUpperAZ u then c :: ' ' :: u :: sentSpaceGo fuel r2
          else c :: sentSpaceGo fuel t
        | [] => c :: sentSpaceGo fuel t
      else c :: sentSpaceGo fuel t
    else c :: sentSpaceGo fuel t

def sentSpace (l : Str) : Str := sentSpaceGo l.length l

/-- The punctuation class `[.!?,:;]` (also `[.,;:!?]`, the same set). -/
def isPunct1 (c : Char) : Bool :=
  c = '.' || c = '!' || c = '?' || c = ',' || c = ':' || c = ';'

/-- `re.sub(r'([.!?,:;]){2,}', r'\1', text)`: a maximal run of two or more
punctuation marks is replaced by its last mark. -/
def punctRunGo : Nat → Str → Str
  | 0, l => l
  | _ + 1, [] => []
  | fuel + 1, c :: t =>
    if isPunct1 c then
      if (t.takeWhile isPunct1) ≠ [] then
        (t.takeWhile isPunct1).getLastD c :: punctRunGo fuel (t.dropWhile isPunct1)
      else c :: punctRunGo fuel t
    else c :: punctRunGo fuel t

def punctRun (l : Str) : Str := punctRunGo l.length l

/-- The vowel class `[aeiouAEIOU]`. -/
def isVowelAny (c : Char) : Bool :=
  c = 'a' || c = 'e' || c = 'i' || c = 'o' || c = 'u' ||
  c = 'A' || c = 'E' || c = 'I' || c = 'O' || c = 'U'

/-- Scanner for `re.sub(r"\b(l)\s+([aeiouAEIOU])", r"l'\2", text)`; `prev`
is the character before the scan position (for the `\b` test). -/
def articleFixGo (prev : Option Char) : Nat → Str → Str
  | 0, l => l
  | _ + 1, [] => []
  | fuel + 1, c :: t =>
    if c = 'l' && (match prev with | none => true | some p => !(isWordChar p)) then
      if (t.takeWhile fun d => isPySpace d) ≠ [] then
        match t.dropWhile (fun d => isPySpace d) with
        | v :: r2 =>
          if isVowelAny v then 'l' :: '\'' :: v :: articleFixGo (some v) fuel r2
          else 'l' :: articleFixGo (some 'l') fuel t
        | [] => 'l' :: articleFixGo (some 'l') fuel t
      else 'l' :: articleFixGo (some 'l') fuel t
    else c :: articleFixGo (some c) fuel t

def articleFix (s : Str) : Str := articleFixGo none s.length s

/-- `re.sub(r'\s+([.,;:!?])', r'\1', text)`: drop whitespace before punctuation. -/
def punctSpace1Go : Nat → Str → Str
  | 0, l => l
  | _ + 1, [] => []
  | fuel + 1, c :: t =>
    if isPySpace c then
      match t.dropWhile (fun d => isPySpace d) with
      | p :: r2 =>
        if isPunct1 p then p :: punctSpace1Go fuel r2
        else c :: punctSpace1Go fuel t
      | [] => c :: punctSpace1Go fuel t
    else c :: punctSpace1Go fuel t

def punctSpace1 (l : Str) : Str := punctSpace1Go l.length l

/-- `re.sub(r'([.,;:!?])\s+', r'\1 ', text)`: one space after punctuation. -/
def punctSpace2Go : Nat → Str → Str
  | 0, l => l
  | _ + 1, [] => []
  | fuel + 1, c :: t =>
    if isPunct1 c && (t.takeWhile fun d => isPySpace d) ≠ [] then
      c :: ' ' :: punctSpace2Go fuel (t.dropWhile (fun d => isPySpace d))
    else c :: punctSpace2Go fuel t

def punctSpace2 (l : Str) : Str := punctSpace2Go l.length l

/-- The class `[•\-*\d]`. -/
def isMarkerChar (c : Char) : Bool := c = '•' || c = '-' || c = '*' || ('0' ≤ c && c ≤ '9')

/-- `re.sub(r'^[•\-*\d]+[\.\)]*\s*', '', text)`: strip one leading
bullet/number marker (anchored, so at most one removal). -/
def leadingMarker (s : Str) : Str :=
  if (s.takeWhile isMarkerChar) = [] then s
  else
    ((s.dropWhile isMarkerChar).dropWhile fun c => c = '.' || c = ')').dropWhile
      fun c => isPySpace c

/-- `re.sub(r'(\w)l(\w)', r'\1i\2', text)`: the OCR fix replacing `l`
between word characters by `i`. -/
def ocrL : Str → Str
  | a :: b :: c :: t =>
    if isWordChar a && b = 'l' && isWordChar c then a :: 'i' :: c :: ocrL t
    else a :: ocrL (b :: c :: t)
  | l => l

/-- `text.replace('c0n', 'con')`. -/
def fixC0n : Str → Str
  | a :: b :: c :: t =>
    if a = 'c' && b = '0' && c = 'n' then 'c' :: 'o' :: 'n' :: fixC0n t
    else a :: fixC0n (b :: c :: t)
  | l => l

/-- `text.replace('d1', 'di')`. -/
def fixD1 : Str → Str
  | a :: b :: t =>
    if a = 'd' && b = '1' then 'd' :: 'i' :: fixD1 t
    else a :: fixD1 (b :: t)
  | l => l

/-- Scanner for the word-normalising substitutions
`re.sub(r'\b[Xx]stem[f₁f₂]\b', rep, text)`; `prev` is the character before
the scan position (for the leading `\b`). -/
def stemNormGo (up lo : Char) (stem : Str) (fins : Str) (rep : Str)
    (prev : Option Char) : Nat → Str → Str
  | 0, l => l
  | _ + 1, [] => []
  | fuel + 1, c :: t =>
    if (c = up || c = lo) && (match prev with | none => true | some p => !(isWordChar p)) &&
        startsWith t stem then
      match t.drop stem.length with
      | f :: r2 =>
        if f ∈ fins && (match r2 with | [] => true | d :: _ => !(isWordChar d)) then
          rep ++ stemNormGo up lo stem fins rep (some f) fuel r2
        else c :: stemNormGo up lo stem fins rep (some c) fuel t
      | [] => c :: stemNormGo up lo stem fins rep (some c) fuel t
    else c :: stemNormGo up lo stem fins rep (some c) fuel t

/-- One of the four `\b`-delimited word-normalising substitutions of
`clean_text` (allegato / documento / dichiarazione / certificato). -/
def stemNorm (up lo : Char) (stem fins rep : Str) (s : Str) : Str :=
  stemNormGo up lo stem fins rep none s.length s

/-- `utils.clean_text`: the full cleaning pipeline, in source order. -/
def clean_text : Option Str → Str
  | none => []
  | some text =>
    let t := normalize_whitespace (some text)
    let t := nfkcNormalize t
    let t := t.map glyphFix
    let t := bulletFix t
    let t := sentSpace t
    let t := punctRun t
    let t := articleFix t
    let t := punctSpace1 t
    let t := punctSpace2 t
    let t := leadingMarker t
    let t := ocrL t
    let t := fixC0n t
    let t := fixD1 t
    let t := stemNorm 'A' 'a' (str "llegat") (str "oi") (str "allegato") t
    let t := stemNorm 'D' 'd' (str "ocument") (str "oi") (str "documento") t
    let t := stemNorm 'D' 'd' (str "ichiarazion") (str "ei") (str "dichiarazione") t
    let t := stemNorm 'C' 'c' (str "ertificat") (str "oi") (str "certificato") t
    pyStrip t

/-- `clean_text` applied to a present string. -/
def cleanS (s : Str) : Str := clean_text (some s)

/-! ## The static taxonomy (`DocumentationAnalyzer.target_documentation`) -/

/-- One taxonomy entry: a canonical document name and its keyword variants. -/
structure DocItem where
  name : String
  keywords : List String
deriving DecidableEq

/-- The `target_documentation` table of `DocumentationAnalyzer.__init__`,
transcribed entry for entry. -/
def target_documentation : List DocItem := [
  ⟨"scheda progettuale", ["scheda progett", "scheda del progett", "progett", "piano di sviluppo"]⟩,
  ⟨"piano finanziario delle entrate e delle spese", ["piano finanziar", "budget", "entrate e spese", "piano delle spese", "previsione di spesa"]⟩,
  ⟨"programma di investimento", ["programma di invest", "piano di invest", "investiment"]⟩,
  ⟨"dichiarazione sul rispetto del DNSH", ["DNSH", "Do No Significant Harm", "dichiarazione DNSH", "rispetto del DNSH"]⟩,
  ⟨"copia delle ultime due dichiarazioni dei redditi", ["dichiarazion", "redditi", "dichiarazione dei redditi", "modello unico", "modello 730"]⟩,
  ⟨"dichiarazioni IVA", ["IVA", "dichiarazione IVA", "dichiarazioni IVA", "imposta valore aggiunto"]⟩,
  ⟨"situazione economica e patrimoniale", ["situazione economic", "situazione patrimonial", "stato patrimonial", "bilancio", "conto economic"]⟩,
  ⟨"conto economico previsionale", ["conto economic", "economic prevision", "prevision", "bilancio prevision"]⟩,
  ⟨"documenti giustificativi di spesa", ["giustificativ", "spesa", "document di spesa", "fattur", "quietanz"]⟩,
  ⟨"relazione dei lavori eseguiti", ["relazione", "lavori eseguit", "relazione di esecuzione", "relazione tecnica"]⟩,
  ⟨"materiale promozionale", ["material promozional", "promozion", "marketing", "pubblicit"]⟩,
  ⟨"informazioni su compagine sociale", ["compagine social", "assetto societari", "soc", "struttura societaria"]⟩,
  ⟨"elenco delle agevolazioni pubbliche", ["agevolazion", "contribut", "finanziam", "aiuti di stato", "de minimis"]⟩,
  ⟨"dichiarazione di inizio attività", ["inizio attività", "DIA", "SCIA", "dichiarazione di inizio", "avvio attivit"]⟩,
  ⟨"progetto imprenditoriale", ["progetto imprenditori", "business idea", "idea imprenditori", "proposta imprenditori"]⟩,
  ⟨"pitch", ["pitch", "presentazione", "elevator pitch", "pitch deck"]⟩,
  ⟨"curriculum vitae", ["curriculum", "CV", "curriculum vitae", "esperienza", "competenze"]⟩,
  ⟨"curriculum vitae team imprenditoriale", ["curriculum team", "CV team", "team imprenditori", "soci", "fondatori"]⟩,
  ⟨"dichiarazione sulla localizzazione", ["localizzazione", "ubicazione", "sede", "luogo", "dichiarazione localizzazione"]⟩,
  ⟨"atto di assenso del proprietario", ["assenso", "propriet", "autorizzazione propriet", "consenso propriet"]⟩,
  ⟨"contratto di locazione", ["locazion", "affitto", "contratto di locazione", "contratto d'affitto"]⟩,
  ⟨"contratto di comodato", ["comodato", "comodato d'uso", "contratto di comodato"]⟩,
  ⟨"certificazione qualità", ["certificazione qualit", "ISO", "certificato di qualit", "sistema qualit"]⟩,
  ⟨"fatture elettroniche", ["fattur", "fattura elettronic", "fatturazione elettronic", "e-fattura"]⟩,
  ⟨"quietanze originali", ["quietanz", "ricevut", "pagament", "bonifico", "pagamento effettuato"]⟩,
  ⟨"Business plan", ["business plan", "piano di business", "piano aziendale", "piano d'impresa"]⟩,
  ⟨"dichiarazione sostitutiva", ["dichiarazione sostitutiva", "autocertificazione", "DPR 445", "445/2000"]⟩,
  ⟨"copia dei pagamenti effettuati", ["pagament", "bonifico", "estratto conto", "ricevuta di pagamento"]⟩,
  ⟨"dichiarazione di fine corso", ["fine corso", "completamento corso", "attestazione finale", "conclusione corso"]⟩,
  ⟨"attestato di frequenza", ["attestato", "frequenza", "partecipazione", "certificato di frequenza"]⟩,
  ⟨"report di self-assessment SUSTAINability", ["self-assessment", "sustainability", "sostenibilit", "valutazione sostenibilit"]⟩,
  ⟨"relazione finale di progetto", ["relazione final", "report final", "conclusione progett", "progetto concluso"]⟩,
  ⟨"Atto di conferimento", ["conferimento", "atto di conferimento", "conferimento incarico", "mandato"]⟩,
  ⟨"investitore esterno", ["investitor", "finanziator", "business angel", "venture capital", "investimento esterno"]⟩,
  ⟨"Delega del Legale rappresentante", ["delega", "legale rappresentante", "rappresentanza", "procura"]⟩,
  ⟨"Budget dei costi", ["budget", "costi", "preventivo", "piano dei costi", "previsione costi"]⟩,
  ⟨"Certificato di attribuzione del codice fiscale", ["codice fiscale", "certificato attribuzione", "attribuzione codice", "agenzia entrate"]⟩,
  ⟨"Analisi delle entrate", ["analisi entrate", "entrate", "ricavi", "introiti", "analisi ricavi"]⟩,
  ⟨"DURC", ["DURC", "regolarità contributiva", "documento unico", "contributi"]⟩,
  ⟨"Dichiarazione antiriciclaggio", ["antiriciclaggio", "riciclaggio", "AML", "D.lgs 231"]⟩,
  ⟨"Dichiarazioni antimafia", ["antimafia", "certificazione antimafia", "informativa antimafia", "D.lgs 159"]⟩,
  ⟨"fideiussione", ["fideiussion", "garanzia", "polizza fideiussoria", "garanzia bancaria"]⟩,
  ⟨"Casellario Giudiziale", ["casellario", "giudiziale", "certificato penale", "carichi pendenti"]⟩,
  ⟨"Fideiussione Provvisoria", ["fideiussione provvisoria", "garanzia provvisoria", "cauzione provvisoria"]⟩,
  ⟨"contributo ANAC", ["ANAC", "autorità anticorruzione", "contributo gara"]⟩,
  ⟨"DICHIARAZIONE D'INTENTI", ["intenti", "dichiarazione d'intenti", "lettera d'intenti", "manifestazione interesse"]⟩,
  ⟨"DICHIARAZIONE INTESTAZIONE FIDUCIARIA", ["intestazione fiduciaria", "fiduciari", "trustee", "fiduciante"]⟩,
  ⟨"certificato di regolarità fiscale", ["regolarità fiscal", "agenzia entrate", "debiti fiscali", "imposte"]⟩,
  ⟨"certificato di iscrizione al registro delle imprese", ["registro imprese", "iscrizione camera", "CCIAA", "camera di commercio"]⟩,
  ⟨"piano di sicurezza", ["sicurezza", "piano di sicurezza", "PSC", "coordinamento sicurezza"]⟩,
  ⟨"certificato di conformità", ["conformità", "certificato conformità", "dichiarazione conformità", "attestazione conformità"]⟩,
  ⟨"Attestazione del professionista", ["attestazione professionist", "perizia", "relazione professionist", "relazione tecnica"]⟩,
  ⟨"GANTT del progetto", ["gantt", "cronoprogramma", "tempistiche", "pianificazione temporale"]⟩,
  ⟨"atto di nomina", ["nomina", "atto di nomina", "designazione", "incarico"]⟩,
  ⟨"visura catastale", ["visura catast", "catasto", "dati catastali", "estratto catastale"]⟩,
  ⟨"DSAN", ["DSAN", "dichiarazione sostitutiva atto notorietà", "atto notorio", "dichiarazione sostitutiva"]⟩,
  ⟨"certificato di attribuzione di partita IVA", ["partita IVA", "P.IVA", "attribuzione IVA", "certificato IVA"]⟩,
  ⟨"brevetto", ["brevett", "patent", "proprietà intellettuale", "invenzione"]⟩,
  ⟨"licenza brevettuale", ["licenza brevett", "licenza patent", "uso brevetto", "sfruttamento brevetto"]⟩,
  ⟨"attestato di certificazione del libretto", ["libretto", "libretto di certificazione", "libretto formativo", "attestato libretto"]⟩,
  ⟨"visura camerale", ["visura", "visura camerale", "camera di commercio", "registro imprese"]⟩,
  ⟨"carta d'identità", ["carta d'identità", "documento identità", "carta identità", "ID"]⟩,
  ⟨"codice fiscale", ["codice fiscale", "CF", "tessera sanitaria", "codice contribuente"]⟩,
  ⟨"certificato Soa", ["SOA", "attestazione SOA", "qualificazione", "certificato SOA"]⟩]

/-- The `doc_keywords` list of `DocumentationAnalyzer.__init__`. -/
def doc_keywords : List String := [
  "document", "allegat", "modulistic", "certificaz",
  "richiest", "presentare", "obbligo", "necessari",
  "domanda", "application", "richiesta", "presentazione",
  "firma", "signature", "digitale", "copia", "identity",
  "identità", "dichiarazione", "declaration", "formulario",
  "modulo", "form", "attestazione", "certification",
  "visura", "camerale", "bilancio", "curriculum", "fattur",
  "quietanz", "business plan", "contribut", "report", "relazion"]

/-! ## The merged grant-data model (the dictionary `merge_grant_data` builds) -/

/-- One entry of `merged_data['all_content']`: a source label and a text chunk. -/
structure ContentItem where
  source : Str
  text : Str
deriving DecidableEq

/-- One entry of `merged_data['pdf_sources']`. -/
structure PdfInfoRec where
  url : Str
  filename : Str
  context : Str
deriving DecidableEq

/-- A row of a scraped table: either a dict row (header-zipped; only its
values are consumed downstream) or a plain list of cell strings. -/
inductive TRow where
  | rdict (vals : List (Str × Str))
  | rcells (cells : List Str)
deriving DecidableEq

/-- The merged grant dictionary (`merge_grant_data`'s result and
`extract_target_documentation`'s input).  Keys the minimal branch omits
(`all_content`, `tables`) default to empty, matching the
`.get(key, default)` reads on the consumer side. -/
structure GrantData where
  title : Str := []
  overview : Str := []
  sections : List (Str × Str) := []
  lists : List (Str × List Str) := []
  requirements : List Str := []
  documentation : List Str := []
  deadlines : List Str := []
  eligibility : List Str := []
  funding : List Str := []
  pdf_sources : List PdfInfoRec := []
  raw_text : Str := []
  all_content : List ContentItem := []
  tables : List (Str × List TRow) := []
deriving DecidableEq

/-! ## `extract_target_documentation` -/

/-- The `extracted_docs` dictionary: document-type name to snippets, in
insertion order. -/
abbrev Docs := List (String × List Str)

/-- Dictionary lookup with Python's "missing key behaves as just-created
empty list" convention (keys are only ever created empty). -/
def getD (d : Docs) (k : String) : List Str :=
  match d with
  | [] => []
  | p :: t => if p.1 = k then p.2 else getD t k

def hasKey (d : Docs) (k : String) : Bool :=
  match d with
  | [] => false
  | p :: t => p.1 = k || hasKey t k

/-- `if item_name not in extracted_docs: extracted_docs[item_name] = []`. -/
def ensureKey (d : Docs) (k : String) : Docs :=
  if hasKey d k then d else d ++ [(k, [])]

/-- `extracted_docs[k].append(x)`. -/
def appendSnip (d : Docs) (k : String) (x : Str) : Docs :=
  d.map (fun p => if p.1 = k then (p.1, p.2 ++ [x]) else p)

/-- `extracted_docs[k].extend(xs)`. -/
def extendSnips (d : Docs) (k : String) (xs : List Str) : Docs :=
  d.map (fun p => if p.1 = k then (p.1, p.2 ++ xs) else p)

/-- Python `list.index` (first occurrence; callers guarantee presence). -/
def idxOf (x : Str) : List Str → Nat
  | [] => 0
  | y :: t => if y = x then 0 else idxOf x t + 1

/-- `re.match(r'^[\s]*[-•*]\s|^\d+[.)\s]', s)`: the sentence looks like a
bullet or numbered list item. -/
def matchesListItem (s : Str) : Bool :=
  (match s.dropWhile (fun c => isPySpace c) with
   | c :: d :: _ => (c = '-' || c = '•' || c = '*') && isPySpace d
   | _ => false) ||
  (match s with
   | c :: rest => ('0' ≤ c && c ≤ '9') &&
       (match rest.dropWhile (fun c => '0' ≤ c && c ≤ '9') with
        | d :: _ => d = '.' || d = ')' || isPySpace d
        | [] => false)
   | [] => false)

/-- `re.search(r'(?:seguent|necessari|richied|presentare|allegare)', sl)`:
the (lowercased) sentence looks like a list header. -/
def isListHeaderSentence (sl : Str) : Bool :=
  containsStr sl (str "seguent") || containsStr sl (str "necessari") ||
  containsStr sl (str "richied") || containsStr sl (str "presentare") ||
  containsStr sl (str "allegare")

/-- The bounded lookahead after a list-header sentence: the next five
sentences that look like list items, cleaned. -/
def sentencesLookahead (sentences : List Str) (s : Str) : List Str :=
  (((sentences.drop (idxOf s sentences + 1)).take 5).filter matchesListItem).map cleanS

/-- Per-sentence body of the first (content-chunk) phase of
`extract_target_documentation`, for one taxonomy entry `e` with matching
keywords `mks`. -/
def processSentence (e : DocItem) (mks : List String) (sentences : List Str)
    (d : Docs) (s : Str) : Docs :=
  if mks.any (fun kw => containsStr (lowerStr s) (lowerStr kw.data)) then
    if cleanS s ≠ [] ∧ 10 < (cleanS s).length ∧ cleanS s ∉ getD d e.name then
      if isListHeaderSentence (lowerStr s) then
        if sentencesLookahead sentences s ≠ [] then
          extendSnips (appendSnip d e.name (cleanS s)) e.name (sentencesLookahead sentences s)
        else appendSnip d e.name (cleanS s)
      else appendSnip d e.name (cleanS s)
    else d
  else d

/-- One taxonomy entry against one content chunk (first phase). -/
def processEntryChunk (sentences : List Str) (tl : Str) (d : Docs) (e : DocItem) : Docs :=
  if e.keywords.filter (fun kw => containsStr tl (lowerStr kw.data)) ≠ [] then
    sentences.foldl
      (processSentence e (e.keywords.filter (fun kw => containsStr tl (lowerStr kw.data))) sentences)
      (ensureKey d e.name)
  else ensureKey d e.name

/-- One content chunk of `grant_data['all_content']` (first phase). -/
def processChunk (tok : Str → List Str) (d : Docs) (ci : ContentItem) : Docs :=
  if ci.text = [] then d
  else target_documentation.foldl (processEntryChunk (tok ci.text) (lowerStr ci.text)) d

/-- The bounded two-sentence lookahead of the raw-text phase. -/
def processRawLookahead (e : DocItem) (d4 : Docs) (ns : Str) : Docs :=
  if matchesListItem ns then
    if cleanS ns ≠ [] ∧ cleanS ns ∉ getD d4 e.name then appendSnip d4 e.name (cleanS ns)
    else d4
  else d4

/-- Per-sentence body of the raw-text phase (minimum length 15 here). -/
def processRawSentence (e : DocItem) (mks : List String) (sentences : List Str)
    (d2 : Docs) (s : Str) : Docs :=
  if mks.any (fun kw => containsStr (lowerStr s) (lowerStr kw.data)) then
    if cleanS s ≠ [] ∧ 15 < (cleanS s).length ∧ cleanS s ∉ getD d2 e.name then
      ((sentences.drop (idxOf s sentences + 1)).take 2).foldl (processRawLookahead e)
        (appendSnip d2 e.name (cleanS s))
    else d2
  else d2

/-- One taxonomy entry against the whole `raw_text` (second phase; skipped
for entries that already have content). -/
def processRawEntry (sentences : List Str) (rl : Str) (d : Docs) (e : DocItem) : Docs :=
  if getD (ensureKey d e.name) e.name ≠ [] then ensureKey d e.name
  else if e.keywords.filter (fun kw => containsStr rl (lowerStr kw.data)) ≠ [] then
    sentences.foldl
      (processRawSentence e (e.keywords.filter (fun kw => containsStr rl (lowerStr kw.data))) sentences)
      (ensureKey d e.name)
  else ensureKey d e.name

/-- Third phase, first sub-loop: the list header matched the entry. -/
def processListKeyMatch (e : DocItem) (d : Docs) (item : Str) : Docs :=
  if item ≠ [] ∧ item ∉ getD d e.name then appendSnip d e.name item else d

/-- Third phase, second sub-loop: the list item itself matches a keyword. -/
def processListItemMatch (e : DocItem) (d : Docs) (item : Str) : Docs :=
  if item ≠ [] then
    if e.keywords.any (fun kw => containsStr (lowerStr item) (lowerStr kw.data)) then
      if item ∉ getD d e.name then appendSnip d e.name item else d
    else d
  else d

/-- One taxonomy entry against one `(list_key, list_items)` pair (third phase). -/
def processListEntry (k : Str) (items : List Str) (d : Docs) (e : DocItem) : Docs :=
  items.foldl (processListItemMatch e)
    (if e.keywords.any (fun kw => containsStr (lowerStr k) (lowerStr kw.data)) then
       items.foldl (processListKeyMatch e) (ensureKey d e.name)
     else ensureKey d e.name)

/-- One taxonomy entry against one general documentation mention (fourth phase). -/
def processDocEntry (dl : Str) (docItem : Str) (d : Docs) (e : DocItem) : Docs :=
  if e.keywords.any (fun kw => containsStr dl (lowerStr kw.data)) then
    if docItem ∉ getD (ensureKey d e.name) e.name then
      appendSnip (ensureKey d e.name) e.name docItem
    else ensureKey d e.name
  else ensureKey d e.name

def extractPhase1 (tok : Str → List Str) (gd : GrantData) (d : Docs) : Docs :=
  gd.all_content.foldl (processChunk tok) d

def extractPhase2 (tok : Str → List Str) (gd : GrantData) (d : Docs) : Docs :=
  if gd.raw_text ≠ [] then
    target_documentation.foldl (processRawEntry (tok gd.raw_text) (lowerStr gd.raw_text)) d
  else d

def extractPhase3 (gd : GrantData) (d : Docs) : Docs :=
  gd.lists.foldl (fun d p => target_documentation.foldl (processListEntry p.1 p.2) d) d

def extractPhase4 (gd : GrantData) (d : Docs) : Docs :=
  gd.documentation.foldl (fun d di =>
    if di = [] then d
    else target_documentation.foldl (processDocEntry (lowerStr di) di) d) d

/-- `DocumentationAnalyzer.extract_target_documentation`, parameterised by
the sentence tokenizer (`nltk.sent_tokenize` in the source): the four
phases in source order, then removal of empty entries. -/
def extract_target_documentation (tok : Str → List Str) (gd : GrantData) : Docs :=
  (extractPhase4 gd (extractPhase3 gd (extractPhase2 tok gd (extractPhase1 tok gd [])))).filter
    (fun p => decide (p.2 ≠ []))

/-- A simple sentence splitter, `re.split(r'(?<=[.!?])\s+', text)`: the
repository itself tokenizes this way in `utils.extract_document_info`.  It
serves as the concrete tokenizer instance in witnesses (the analyzer's own
tokenizer, NLTK `sent_tokenize`, is an external library held abstract). -/
def splitSentencesGo (cur : Str) : Nat → Str → List Str
  | 0, l => [(l.reverse ++ cur).reverse]
  | _ + 1, [] => [cur.reverse]
  | fuel + 1, c :: t =>
    if c = '.' || c = '!' || c = '?' then
      if (t.takeWhile fun d => isPySpace d) ≠ [] then
        (c :: cur).reverse :: splitSentencesGo [] fuel (t.dropWhile fun d => isPySpace d)
      else splitSentencesGo (c :: cur) fuel t
    else splitSentencesGo (c :: cur) fuel t

def splitSentences (s : Str) : List Str := splitSentencesGo [] s.length s

/-! ## Rendering (`generate_documentation_content`, `generate_summary`) -/

/-- The `merge_pairs` table of `_group_similar_items`. -/
def merge_pairs : List (String × String) := [
  ("curriculum vitae", "curriculum vitae team imprenditoriale"),
  ("copia delle ultime due dichiarazioni dei redditi", "dichiarazioni IVA"),
  ("piano finanziario delle entrate e delle spese", "programma di investimento"),
  ("copia dei pagamenti effettuati", "quietanze originali"),
  ("fatture elettroniche", "documenti giustificativi di spesa")]

/-- `DocumentationAnalyzer._group_similar_items`: merge the fixed key pairs
(under a combined `key1 / key2` label), then keep all unmerged entries. -/
def group_similar_items (ed : Docs) : Docs :=
  let merged := merge_pairs.foldl (fun acc p =>
    if hasKey ed p.1 ∧ hasKey ed p.2 then
      acc ++ [(p.1 ++ " / " ++ p.2,
               getD ed p.1 ++ (getD ed p.2).filter (fun i => i ∉ getD ed p.1))]
    else acc) []
  let mergedKeys := merge_pairs.foldl (fun acc p =>
    if hasKey ed p.1 ∧ hasKey ed p.2 then p.1 :: p.2 :: acc else acc) ([] : List String)
  merged ++ ed.filter (fun p => p.1 ∉ mergedKeys)

/-- The `priority_items` list of `_sort_documentation_items`. -/
def priority_items : List String := [
  "scheda progettuale",
  "progetto imprenditoriale",
  "Business plan",
  "piano finanziario delle entrate e delle spese",
  "DICHIARAZIONE D'INTENTI",
  "dichiarazione sostitutiva",
  "curriculum vitae"]

/-- The `mandatory_patterns` list of `_sort_documentation_items`. -/
def mandatory_patterns : List String :=
  ["obbligator", "necessari", "richiest", "presentare", "allegare"]

/-- The score `_sort_documentation_items` assigns one group: snippet count,
plus 5 when a priority string occurs in the lowercased key, plus 2 when
some snippet contains a mandatory pattern. -/
def scoreItem (key : String) (items : List Str) : Nat :=
  let base := items.length
  let base := if priority_items.any (fun p => containsStr (lowerStr key.data) p.data)
              then base + 5 else base
  if items.any (fun it => mandatory_patterns.any (fun pat => containsStr (lowerStr it) pat.data))
  then base + 2 else base

/-- `DocumentationAnalyzer._sort_documentation_items`:
`sorted(keys, key=score, reverse=True)` — a stable descending sort.  Any
stable sort with the same key produces the identical list, so insertion
sort models Python's Timsort exactly. -/
def sort_documentation_items (grouped : Docs) : List String :=
  (grouped.map Prod.fst).insertionSort
    (fun a b => scoreItem b (getD grouped b) ≤ scoreItem a (getD grouped a))

/-- `DocumentationAnalyzer._is_similar_to_previous`.  Rational arithmetic
models Python's float arithmetic: at the character-set sizes and lengths
involved the double roundings of `0.8`, `0.3` and the division never flip
these comparisons.  At the single division-by-zero point (both strings
empty) Python would raise `ZeroDivisionError`, while `ℚ` yields `0/0 = 0`
and the model returns `false`. -/
def is_similar_to_previous (current previous : Str) : Bool :=
  let cur := lowerStr current
  let prev := lowerStr previous
  let currentChars := cur.dedup
  let previousChars := prev.dedup
  let commonChars := currentChars.filter (fun c => c ∈ previousChars)
  if ((commonChars.length : ℚ) / (max currentChars.length previousChars.length : ℚ) > 8/10) then
    if |(cur.length : ℚ) - (prev.length : ℚ)| < 3/10 * (max cur.length prev.length : ℚ) then
      true
    else false
  else false

/-- The snippet loop inside `generate_documentation_content`: a snippet
after the first is skipped when similar to the immediately preceding
snippet of the group's list. -/
def renderGroupLines : List Str → List Str
  | [] => []
  | c0 :: rest => (str "- " ++ c0) :: go c0 rest
where go : Str → List Str → List Str
  | _, [] => []
  | prev, c :: t =>
    if is_similar_to_previous c prev then go c t
    else (str "- " ++ c) :: go c t

/-- Python `"\n".join`. -/
def joinNl : List Str → Str
  | [] => []
  | [p] => p
  | p :: q :: t => p ++ '\n' :: joinNl (q :: t)

/-- The `content_parts` list assembled by
`DocumentationAnalyzer.generate_documentation_content` in its non-empty
branch, with the `datetime.now()` timestamp as the parameter `now`. -/
def generate_documentation_content_parts (now : Str) (extracted : Docs)
    (grantTitle : Str) : List Str :=
  let header := if grantTitle ≠ [] then str "# Documentazione Necessaria per " ++ grantTitle
                else str "# Documentazione Necessaria"
  let intro := str "\nDi seguito sono elencati i documenti che potrebbero essere richiesti per questo bando, con dettagli estratti direttamente dal testo del bando.\n"
  let grouped := group_similar_items extracted
  let sortedKeys := sort_documentation_items grouped
  let body := sortedKeys.foldl (fun acc name =>
    let cl := getD grouped name
    if cl = [] then acc
    else acc ++ [str "## " ++ name.data] ++ renderGroupLines cl ++ [([] : Str)]) []
  [header, intro] ++ body ++
    [str "\n_Ultimo aggiornamento: " ++ now ++ str "_",
     str "\n**Nota**: Si consiglia di verificare sempre la documentazione richiesta consultando il testo completo del bando, in quanto potrebbero esserci requisiti specifici non estratti automaticamente."]

/-- `DocumentationAnalyzer.generate_documentation_content`. -/
def generate_documentation_content (now : Str) (extracted : Docs) (grantTitle : Str) : Str :=
  if extracted = [] then
    str "Nessuna informazione specifica sulla documentazione necessaria è stata trovata nel bando."
  else joinNl (generate_documentation_content_parts now extracted grantTitle)

/-- `DocumentationAnalyzer.generate_summary`, with the timestamp as `now`
and the sentence tokenizer as `tok`.  The source's `if not grant_data`
guard (an entirely empty input dictionary) is outside the model:
`merge_grant_data` never returns an empty dictionary, and the modelled
`GrantData` always carries its keys. -/
def generate_summary (now : Str) (tok : Str → List Str) (gd : GrantData) : Str :=
  let grantTitle := gd.title
  let extracted := extract_target_documentation tok gd
  if extracted = [] then
    if gd.documentation ≠ [] then
      joinNl ([str "# Documentazione Necessaria per " ++ grantTitle,
               str "\nLe seguenti informazioni sulla documentazione sono state trovate nel bando:\n"] ++
              (gd.documentation.filter (fun it => it ≠ [])).map (fun it => str "- " ++ it) ++
              [str "\n_Ultimo aggiornamento: " ++ now ++ str "_",
               str "\n**Nota**: Si consiglia di verificare sempre la documentazione richiesta consultando il testo completo del bando."])
    else
      str "# Documentazione Necessaria per " ++ grantTitle ++
      str "\n\nNon sono state trovate informazioni specifiche sulla documentazione richiesta per questo bando.\nSi consiglia di consultare direttamente il bando disponibile al sito ufficiale per i dettagli sulla documentazione necessaria.\n\n_Ultimo aggiornamento: " ++ now ++ str "_\n"
  else generate_documentation_content now extracted grantTitle

/-! ## `merge_grant_data` -/

/-- A value of `data['structured_info']`: list of strings, plain string,
or the dict the scraper stores (unconditionally, when extraction succeeds)
under `"Documentazione_Specifica"`, mapping a document type to its context
snippets.  The merge copies every value into `all_sections`; only list and
string values reach `raw_text`/`all_content` (the `isinstance` guards skip
a dict), but a dict value that survives in `all_sections` always makes the
categorisation tail raise `TypeError` (see `MergeError`). -/
inductive StructVal where
  | vlist (items : List Str)
  | vstr (s : Str)
  | vdict (entries : List (Str × List Str))
deriving DecidableEq

/-- One web-page dictionary as produced by the web scraper; `none` models
an absent key. -/
structure WebData where
  title : Option Str := none
  main_content : Option Str := none
  structured_info : Option (List (Str × StructVal)) := none
  lists : Option (List (Str × List Str)) := none
  tables : Option (List (Str × List TRow)) := none
deriving DecidableEq

/-- One PDF dictionary as produced by the PDF processor.  `topics` holds
the extra keys carrying list values (including `"Documentazione"`); the
metadata keys the source skips (`sections`, `lists`, `tables`, `source`,
`filename`, `context`, `error`, `is_priority`) are the other fields. -/
structure PdfData where
  source : Option Str := none
  filename : Option Str := none
  context : Option Str := none
  main_content : Option Str := none
  sections : Option (List (Str × Str)) := none
  lists : Option (List (List Str)) := none
  topics : List (Str × List Str) := []
deriving DecidableEq

/-- The exceptions `merge_grant_data` itself can raise on typed input:
the `UnboundLocalError` on `pdf_info` (a PDF entry carries `main_content`
while no entry so far had a truthy `source`), the `AttributeError` of
calling `.values()` on a non-dict row of a table whose first row is a
dict, and the `TypeError` a dict value left in `all_sections` causes in
the categorisation tail.  That `TypeError` has two concrete raise points:
when the key matches no category, `" ".join(values)` inside
`_categorize_information` raises at once; when the key does match (the
scraper's `Documentazione_Specifica` matches the `documentazione`
keyword), the dict is appended to the category list and the unconditional
`list(dict.fromkeys(...))` dedup a few lines later raises on hashing it.
Nothing between the two points can fail or drop the value, so a single
constructor models both; the model raises it where the categorisation
pass meets the dict value. -/
inductive MergeError where
  | unboundPdfInfo
  | rowValuesOnNonDict
  | dictValueTypeError
deriving DecidableEq

/-- Python truthiness of `data.get(key)` for a string value. -/
def truthy : Option Str → Bool
  | none => false
  | some s => s ≠ []

def optval : Option Str → Str
  | none => []
  | some s => s

/-- Python `" ".join`. -/
def joinSpace : List Str → Str
  | [] => []
  | [x] => x
  | x :: y :: t => x ++ ' ' :: joinSpace (y :: t)

/-- Python dict assignment `d[k] = v`: overwrite in place, else append. -/
def setA (l : List (Str × StructVal)) (k : Str) (v : StructVal) : List (Str × StructVal) :=
  if l.any (fun p => p.1 = k) then l.map (fun p => if p.1 = k then (k, v) else p)
  else l ++ [(k, v)]

/-- Python dict assignment on `merged_data['sections']`. -/
def setSec (secs : List (Str × Str)) (k v : Str) : List (Str × Str) :=
  if secs.any (fun p => p.1 = k) then secs.map (fun p => if p.1 = k then (k, v) else p)
  else secs ++ [(k, v)]

/-- The duplicate-free list merge of `merge_grant_data` (membership tested
against the growing list, as with the source's `existing_items` set). -/
def combineList (cur add : List Str) : List Str :=
  add.foldl (fun acc item => if item ∈ acc then acc else acc ++ [item]) cur

/-- `merged_data['lists'][key] = value` / combine with duplicates removed. -/
def updateLists (ls : List (Str × List Str)) (k : Str) (items : List Str) :
    List (Str × List Str) :=
  if ls.any (fun p => p.1 = k) then ls.map (fun p => if p.1 = k then (k, combineList p.2 items) else p)
  else ls ++ [(k, items)]

/-- `list(dict.fromkeys(l))`: deduplicate keeping first occurrences. -/
def dedupKeepFirst (l : List Str) : List Str :=
  l.foldl (fun acc x => if x ∈ acc then acc else acc ++ [x]) []

/-- The five generic buckets `_categorize_information` can select. -/
inductive Category where
  | requirements | documentation | deadlines | eligibility | funding
deriving DecidableEq

def addToCategory (g : GrantData) (c : Category) (items : List Str) : GrantData :=
  match c with
  | .requirements => { g with requirements := g.requirements ++ items }
  | .documentation => { g with documentation := g.documentation ++ items }
  | .deadlines => { g with deadlines := g.deadlines ++ items }
  | .eligibility => { g with eligibility := g.eligibility ++ items }
  | .funding => { g with funding := g.funding ++ items }

def catLabel : Category → Str
  | .requirements => str "requirements"
  | .documentation => str "documentation"
  | .deadlines => str "deadlines"
  | .eligibility => str "eligibility"
  | .funding => str "funding"

/-- `DocumentationAnalyzer._categorize_information`. -/
def categorize_information (key : Str) (values : List Str) : Option Category :=
  let kl := lowerStr key
  if doc_keywords.any (fun t => containsStr kl t.data) then some .documentation
  else if [str "requisit", str "necessari", str "obblig"].any (containsStr kl) then
    some .requirements
  else if [str "scadenz", str "termin", str "tempistic", str "deadline"].any (containsStr kl) then
    some .deadlines
  else if [str "beneficiari", str "destinatari", str "ammissibil", str "eligibil"].any (containsStr kl) then
    some .eligibility
  else if [str "contribut", str "finanz", str "budget", str "fond", str "spese"].any (containsStr kl) then
    some .funding
  else if values ≠ [] then
    let tl := lowerStr (joinSpace values)
    if doc_keywords.any (fun t => containsStr tl t.data) then some .documentation
    else if [str "scadenz", str "termin", str "entro il", str "deadline"].any (containsStr tl) then
      some .deadlines
    else if [str "requisit", str "necessari", str "obblig", str "richiesto"].any (containsStr tl) then
      some .requirements
    else if [str "beneficiari", str "destinatari", str "ammissibil", str "eligible"].any (containsStr tl) then
      some .eligibility
    else if [str "contribut", str "finanz", str "budget", str "fond", str "euro", str "€"].any (containsStr tl) then
      some .funding
    else none
  else none

/-- `merged_data['raw_text'] += " " + text`. -/
def appendRaw (g : GrantData) (text : Str) : GrantData :=
  { g with raw_text := g.raw_text ++ ' ' :: text }

/-- `merged_data['all_content'].append({'source': src, 'text': text})`. -/
def appendContent (g : GrantData) (src text : Str) : GrantData :=
  { g with all_content := g.all_content ++ [⟨src, text⟩] }

/-- `DocumentationAnalyzer._extract_documentation_from_text`. -/
def extract_documentation_from_text (tok : Str → List Str) (text : Str) (g : GrantData) :
    GrantData :=
  (tok text).foldl (fun g s =>
    let sl := lowerStr s
    if doc_keywords.any (fun kw => containsStr sl kw.data) then
      let c := clean_text (some s)
      if [str "document", str "allegat", str "modulistic", str "certificaz"].any (containsStr sl) then
        if c ≠ [] ∧ c ∉ g.documentation then { g with documentation := g.documentation ++ [c] }
        else g
      else if [str "requisit", str "necessari", str "obblig"].any (containsStr sl) then
        if c ≠ [] ∧ c ∉ g.requirements then { g with requirements := g.requirements ++ [c] }
        else g
      else g
    else g) g

/-- Python `", ".join`. -/
def joinCommaSpace : List Str → Str
  | [] => []
  | [p] => p
  | p :: q :: t => p ++ ',' :: ' ' :: joinCommaSpace (q :: t)

/-- Best-effort Python `str(...)` of a dict table row (only reachable in
the mixed-table raw-text branch). -/
def pyReprDict (vals : List (Str × Str)) : Str :=
  '{' :: joinCommaSpace (vals.map (fun p => '\'' :: p.1 ++ str "': '" ++ p.2 ++ ['\''])) ++ ['}']

/-- `" ".join(str(v) for v in row.values())`: raises on a non-dict row. -/
def dictRowText : TRow → Except MergeError Str
  | .rdict vals => .ok (joinSpace (vals.map Prod.snd))
  | .rcells _ => .error .rowValuesOnNonDict

/-- The raw-text accumulation over a table whose first row is a dict. -/
def tableTextDict (rows : List TRow) : Except MergeError Str :=
  rows.foldlM (fun acc r => do
    let t ← dictRowText r
    return acc ++ t ++ [' ']) []

/-- A row's text in the other table branch. -/
def rowTextElse : TRow → Str
  | .rcells cells => joinSpace cells
  | .rdict vals => pyReprDict vals

def tableTextElse (rows : List TRow) : Str :=
  rows.foldl (fun acc r => acc ++ rowTextElse r ++ [' ']) []

/-- Title resolution of `merge_grant_data`: longest truthy web title, else
the first short truthy PDF context, else the fixed placeholder. -/
def resolveTitle (web_data : List WebData) (pdf_data : List PdfData) : Str :=
  let t := web_data.foldl (fun t d =>
    if truthy d.title ∧ (t = [] ∨ t.length < (optval d.title).length) then optval d.title
    else t) []
  let t := if t = [] then
      (pdf_data.foldl (fun acc d =>
        match acc with
        | some _ => acc
        | none => if truthy d.context ∧ (optval d.context).length < 100 then some (optval d.context)
                  else none) (none : Option Str)).getD []
    else t
  if t = [] then str "Informazioni Bando" else t

/-- One web entry of the merge loop (content, structured info, lists,
tables, documentation mentions), threading the `all_sections` dictionary. -/
def processWebData (tok : Str → List Str) (st : GrantData × List (Str × StructVal))
    (d : WebData) : Except MergeError (GrantData × List (Str × StructVal)) := do
  let (g, sections) := st
  let g := if truthy d.main_content then
      let mc := optval d.main_content
      let g := if g.overview.length < mc.length then { g with overview := mc } else g
      appendContent (appendRaw g mc) (str "web_main_content") mc
    else g
  let stSI := match d.structured_info with
    | none => (g, sections)
    | some si => si.foldl (fun (st2 : GrantData × List (Str × StructVal)) (p : Str × StructVal) =>
        let sections2 := setA st2.2 p.1 p.2
        match p.2 with
        | .vlist l =>
          (appendContent (appendRaw st2.1 (joinSpace l)) (str "web_structured_info_" ++ p.1)
            (joinSpace l), sections2)
        | .vstr s =>
          (appendContent (appendRaw st2.1 s) (str "web_structured_info_" ++ p.1) s, sections2)
        | .vdict _ => (st2.1, sections2))
        (g, sections)
  let g := stSI.1
  let sections := stSI.2
  let g := match d.lists with
    | none => g
    | some ls => ls.foldl (fun (g : GrantData) (p : Str × List Str) =>
        let g := { g with lists := updateLists g.lists p.1 p.2 }
        let lt := joinSpace p.2
        appendContent (appendRaw g lt) (str "web_list_" ++ p.1) lt) g
  let g ← match d.tables with
    | none => pure g
    | some ts =>
      if ts ≠ [] then
        ts.foldlM (fun (g : GrantData) (p : Str × List TRow) => do
          let g := { g with tables := g.tables ++ [(p.1, p.2)] }
          match p.2 with
          | (TRow.rdict _) :: _ => do
            let tt ← tableTextDict p.2
            pure (appendContent (appendRaw g tt) (str "web_table_" ++ p.1) tt)
          | _ =>
            let tt := tableTextElse p.2
            pure (appendContent (appendRaw g tt) (str "web_table_" ++ p.1) tt)) g
      else pure g
  let g := if truthy d.main_content then
      extract_documentation_from_text tok (optval d.main_content) g
    else g
  return (g, sections)

/-- One PDF entry of the merge loop.  `pdfInfo` models the function-scoped
Python local `pdf_info`, unbound until some entry has a truthy source. -/
def processPdfData (tok : Str → List Str)
    (st : GrantData × List (Str × StructVal) × Option PdfInfoRec) (d : PdfData) :
    Except MergeError (GrantData × List (Str × StructVal) × Option PdfInfoRec) := do
  let (g, sections, pdfInfo) := st
  let stSrc := if truthy d.source then
      let pi : PdfInfoRec := ⟨optval d.source, optval d.filename, optval d.context⟩
      ({ g with pdf_sources := g.pdf_sources ++ [pi] }, some pi)
    else (g, pdfInfo)
  let g := stSrc.1
  let pdfInfo := stSrc.2
  let g ← if truthy d.main_content then
      match pdfInfo with
      | none => Except.error MergeError.unboundPdfInfo
      | some pi =>
        let mc := optval d.main_content
        pure (appendContent (appendRaw g mc) (str "pdf_" ++ pi.filename) mc)
    else pure g
  let stSec := match d.sections with
    | none => (g, sections)
    | some ss => ss.foldl (fun (st2 : GrantData × List (Str × StructVal)) (p : Str × Str) =>
        (appendContent (appendRaw st2.1 p.2) (str "pdf_section_" ++ p.1) p.2,
         setA st2.2 p.1 (.vstr p.2))) (g, sections)
  let g := stSec.1
  let sections := stSec.2
  let g := match d.lists with
    | none => g
    | some pls =>
      if pls ≠ [] then
        pls.foldl (fun (g : GrantData) (items : List Str) =>
          let listTitle := if truthy d.context then optval d.context else str "Informazioni dal PDF"
          let g := { g with lists := updateLists g.lists listTitle items }
          let lt := joinSpace items
          appendContent (appendRaw g lt) (str "pdf_list_" ++ listTitle) lt) g
      else g
  let g := d.topics.foldl (fun (g : GrantData) (p : Str × List Str) =>
      match categorize_information p.1 p.2 with
      | some c =>
        let g := addToCategory g c p.2
        let text := joinSpace p.2
        appendContent (appendRaw g text) (str "pdf_categorized_" ++ catLabel c ++ '_' :: p.1) text
      | none => g) g
  let g := if truthy d.main_content then
      extract_documentation_from_text tok (optval d.main_content) g
    else g
  let g := match d.topics.find? (fun p => p.1 = str "Documentazione") with
    | some p => { g with documentation := g.documentation ++ p.2 }
    | none => g
  return (g, sections, pdfInfo)

/-- The `all_sections` categorisation pass at the end of the merge.  A
dict value raises `TypeError` on every path — immediately in
`" ".join` when the key matches no category, otherwise in the
unconditional per-category dedup that follows the pass (see
`MergeError.dictValueTypeError`) — so it maps to `Except.error`. -/
def categorizeSections (g : GrantData) (sections : List (Str × StructVal)) :
    Except MergeError GrantData :=
  sections.foldlM (fun (g : GrantData) (p : Str × StructVal) =>
    match p.2 with
    | .vlist l =>
      match categorize_information p.1 l with
      | some c => pure (addToCategory g c l)
      | none => pure g
    | .vstr s =>
      match categorize_information p.1 [s] with
      | some c => pure (addToCategory g c [s])
      | none => pure { g with sections := setSec g.sections p.1 s }
    | .vdict _ => Except.error MergeError.dictValueTypeError) g

/-- The final per-category duplicate removal of the merge. -/
def dedupCategories (g : GrantData) : GrantData :=
  { g with requirements := dedupKeepFirst g.requirements,
           documentation := dedupKeepFirst g.documentation,
           deadlines := dedupKeepFirst g.deadlines,
           eligibility := dedupKeepFirst g.eligibility,
           funding := dedupKeepFirst g.funding }

/-- `DocumentationAnalyzer.merge_grant_data`, with the sentence tokenizer
as `tok`.  Returns `Except.error` exactly where the Python function would
raise on typed input. -/
def merge_grant_data (tok : Str → List Str) (web_data : List WebData)
    (pdf_data : List PdfData) : Except MergeError GrantData :=
  if web_data = [] ∧ pdf_data = [] then
    .ok { title := str "Informazioni Bando",
          overview := str "Informazioni sul bando in corso di elaborazione.",
          requirements := [str "È necessaria consultazione diretta del bando per dettagli specifici."],
          documentation := [str "Documentazione da verificare sul sito ufficiale del bando."] }
  else do
    let g0 : GrantData := { title := resolveTitle web_data pdf_data }
    let (g, sections) ← web_data.foldlM (processWebData tok) (g0, ([] : List (Str × StructVal)))
    let (g, sections, _) ← pdf_data.foldlM (processPdfData tok)
      (g, sections, (none : Option PdfInfoRec))
    let g ← categorizeSections g sections
    return dedupCategories g

/-! ## Monotonicity of the extraction dictionary operations -/

/-- Snippets only accumulate: everything reachable in `d` stays reachable. -/
def Keeps (d d' : Docs) : Prop := ∀ k x, x ∈ getD d k → x ∈ getD d' k

theorem keeps_refl (d : Docs) : Keeps d d := fun _ _ h => h

theorem keeps_trans {a b c : Docs} (h1 : Keeps a b) (h2 : Keeps b c) : Keeps a c :=
  fun k x h => h2 k x (h1 k x h)

theorem mem_getD_append (d : Docs) (q : String × List Str) :
    Keeps d (d ++ [q]) := by
  induction d with
  | nil => intro k x h; simp [getD] at h
  | cons p t ih =>
    intro k x h
    obtain ⟨k1, v⟩ := p
    simp only [getD, List.cons_append] at h ⊢
    by_cases he : k1 = k
    · simpa [he] using h
    · simp only [he, if_false] at h ⊢
      exact ih k x h

theorem keeps_ensureKey (d : Docs) (k : String) : Keeps d (ensureKey d k) := by
  unfold ensureKey
  by_cases hk : hasKey d k
  · simp only [hk, if_true]
    exact keeps_refl d
  · simp only [hk, Bool.false_eq_true, if_false]
    exact mem_getD_append d (k, [])

theorem keeps_appendSnip (d : Docs) (k : String) (y : Str) : Keeps d (appendSnip d k y) := by
  induction d with
  | nil => intro k' x h; simp [getD] at h
  | cons p t ih =>
    intro k' x h
    obtain ⟨k1, v⟩ := p
    simp only [getD] at h
    simp only [appendSnip, List.map_cons]
    by_cases he : k1 = k
    · simp only [if_pos he]
      simp only [getD]
      by_cases he' : k1 = k'
      · simp only [if_pos he'] at h ⊢
        exact List.mem_append_left _ h
      · simp only [if_neg he'] at h ⊢
        exact ih k' x h
    · simp only [if_neg he]
      simp only [getD]
      by_cases he' : k1 = k'
      · simpa [if_pos he'] using h
      · simp only [if_neg he'] at h ⊢
        exact ih k' x h

theorem keeps_extendSnips (d : Docs) (k : String) (ys : List Str) :
    Keeps d (extendSnips d k ys) := by
  induction d with
  | nil => intro k' x h; simp [getD] at h
  | cons p t ih =>
    intro k' x h
    obtain ⟨k1, v⟩ := p
    simp only [getD] at h
    simp only [extendSnips, List.map_cons]
    by_cases he : k1 = k
    · simp only [if_pos he]
      simp only [getD]
      by_cases he' : k1 = k'
      · simp only [if_pos he'] at h ⊢
        exact List.mem_append_left _ h
      · simp only [if_neg he'] at h ⊢
        exact ih k' x h
    · simp only [if_neg he]
      simp only [getD]
      by_cases he' : k1 = k'
      · simpa [if_pos he'] using h
      · simp only [if_neg he'] at h ⊢
        exact ih k' x h

theorem keeps_processSentence (e : DocItem) (mks : List String) (sentences : List Str)
    (d : Docs) (s : Str) : Keeps d (processSentence e mks sentences d s) := by
  unfold processSentence
  split
  · split
    · split
      · split
        · exact keeps_trans (keeps_appendSnip d e.name (cleanS s))
            (keeps_extendSnips _ e.name _)
        · exact keeps_appendSnip d e.name (cleanS s)
      · exact keeps_appendSnip d e.name (cleanS s)
    · exact keeps_refl d
  · exact keeps_refl d

theorem keeps_foldl {α : Type} (f : Docs → α → Docs) (hk : ∀ d a, Keeps d (f d a))
    (l : List α) (d : Docs) : Keeps d (l.foldl f d) := by
  induction l generalizing d with
  | nil => exact keeps_refl d
  | cons a t ih => exact keeps_trans (hk d a) (ih (f d a))

theorem keeps_processEntryChunk (sentences : List Str) (tl : Str) (d : Docs) (e : DocItem) :
    Keeps d (processEntryChunk sentences tl d e) := by
  simp only [processEntryChunk]
  split
  · exact keeps_trans (keeps_ensureKey d e.name)
      (keeps_foldl _ (keeps_processSentence e _ sentences) sentences _)
  · exact keeps_ensureKey d e.name

theorem keeps_processChunk (tok : Str → List Str) (d : Docs) (ci : ContentItem) :
    Keeps d (processChunk tok d ci) := by
  unfold processChunk
  split
  · exact keeps_refl d
  · exact keeps_foldl _ (keeps_processEntryChunk _ _) target_documentation d

theorem keeps_processRawLookahead (e : DocItem) (d4 : Docs) (ns : Str) :
    Keeps d4 (processRawLookahead e d4 ns) := by
  simp only [processRawLookahead]
  split
  · split
    · exact keeps_appendSnip d4 e.name (cleanS ns)
    · exact keeps_refl d4
  · exact keeps_refl d4

theorem keeps_processRawSentence (e : DocItem) (mks : List String) (sentences : List Str)
    (d2 : Docs) (s : Str) : Keeps d2 (processRawSentence e mks sentences d2 s) := by
  simp only [processRawSentence]
  split
  · split
    · exact keeps_trans (keeps_appendSnip d2 e.name (cleanS s))
        (keeps_foldl _ (keeps_processRawLookahead e) _ _)
    · exact keeps_refl d2
  · exact keeps_refl d2

theorem keeps_processRawEntry (sentences : List Str) (rl : Str) (d : Docs) (e : DocItem) :
    Keeps d (processRawEntry sentences rl d e) := by
  simp only [processRawEntry]
  split
  · exact keeps_ensureKey d e.name
  · split
    · exact keeps_trans (keeps_ensureKey d e.name)
        (keeps_foldl _ (keeps_processRawSentence e _ sentences) sentences _)
    · exact keeps_ensureKey d e.name

theorem keeps_processListKeyMatch (e : DocItem) (d : Docs) (item : Str) :
    Keeps d (processListKeyMatch e d item) := by
  simp only [processListKeyMatch]
  split
  · exact keeps_appendSnip d e.name item
  · exact keeps_refl d

theorem keeps_processListItemMatch (e : DocItem) (d : Docs) (item : Str) :
    Keeps d (processListItemMatch e d item) := by
  simp only [processListItemMatch]
  split
  · split
    · split
      · exact keeps_appendSnip d e.name item
      · exact keeps_refl d
    · exact keeps_refl d
  · exact keeps_refl d

theorem keeps_processListEntry (k : Str) (items : List Str) (d : Docs) (e : DocItem) :
    Keeps d (processListEntry k items d e) := by
  simp only [processListEntry]
  refine keeps_trans ?_ (keeps_foldl _ (keeps_processListItemMatch e) items _)
  split
  · exact keeps_trans (keeps_ensureKey d e.name)
      (keeps_foldl _ (keeps_processListKeyMatch e) items _)
  · exact keeps_ensureKey d e.name

theorem keeps_processDocEntry (dl : Str) (di : Str) (d : Docs) (e : DocItem) :
    Keeps d (processDocEntry dl di d e) := by
  simp only [processDocEntry]
  split
  · split
    · exact keeps_trans (keeps_ensureKey d e.name) (keeps_appendSnip _ e.name di)
    · exact keeps_ensureKey d e.name
  · exact keeps_ensureKey d e.name

theorem mem_getD_filterNonempty (d : Docs) (k : String) (x : Str)
    (h : x ∈ getD d k) : x ∈ getD (d.filter (fun p => decide (p.2 ≠ []))) k := by
  induction d with
  | nil => simp [getD] at h
  | cons p t ih =>
    obtain ⟨k1, v⟩ := p
    simp only [getD] at h
    simp only [List.filter_cons]
    split
    · simp only [getD]
      by_cases he : k1 = k
      · simpa [he] using h
      · simp only [if_neg he] at h ⊢
        exact ih h
    · rename_i hcond
      by_cases he : k1 = k
      · simp only [if_pos he] at h
        have hv : v = [] := by simpa using hcond
        subst hv
        simp at h
      · simp only [if_neg he] at h
        exact ih h

/-! ## Key-presence lemmas and the matcher-soundness hit chain -/

theorem hasKey_appendSnip (d : Docs) (k : String) (y : Str) (k' : String) :
    hasKey (appendSnip d k y) k' = hasKey d k' := by
  induction d with
  | nil => rfl
  | cons p t ih =>
    simp only [appendSnip, List.map_cons] at ih ⊢
    simp only [hasKey]
    have hfst : (if p.1 = k then (p.1, p.2 ++ [y]) else p).1 = p.1 := by
      split <;> rfl
    rw [hfst, ih]

theorem hasKey_extendSnips (d : Docs) (k : String) (ys : List Str) (k' : String) :
    hasKey (extendSnips d k ys) k' = hasKey d k' := by
  induction d with
  | nil => rfl
  | cons p t ih =>
    simp only [extendSnips, List.map_cons] at ih ⊢
    simp only [hasKey]
    have hfst : (if p.1 = k then (p.1, p.2 ++ ys) else p).1 = p.1 := by
      split <;> rfl
    rw [hfst, ih]

theorem hasKey_append_last (d : Docs) (k : String) (v : List Str) :
    hasKey (d ++ [(k, v)]) k = true := by
  induction d with
  | nil => simp [hasKey]
  | cons p t ih =>
    simp only [List.cons_append, hasKey, Bool.or_eq_true]
    exact Or.inr ih

theorem getD_cons (p : String × List Str) (t : Docs) (k : String) :
    getD (p :: t) k = if p.1 = k then p.2 else getD t k := rfl

theorem hasKey_ensureKey_self (d : Docs) (k : String) :
    hasKey (ensureKey d k) k = true := by
  unfold ensureKey
  split
  · assumption
  · exact hasKey_append_last d k []

theorem hasKey_processSentence (e : DocItem) (mks : List String) (sentences : List Str)
    (d : Docs) (s : Str) (k' : String) (h : hasKey d k' = true) :
    hasKey (processSentence e mks sentences d s) k' = true := by
  simp only [processSentence]
  split
  · split
    · split
      · split
        · rw [hasKey_extendSnips, hasKey_appendSnip]; exact h
        · rw [hasKey_appendSnip]; exact h
      · rw [hasKey_appendSnip]; exact h
    · exact h
  · exact h

theorem getD_appendSnip_self (d : Docs) (k : String) (y : Str)
    (hk : hasKey d k = true) : getD (appendSnip d k y) k = getD d k ++ [y] := by
  induction d with
  | nil => simp [hasKey] at hk
  | cons p t ih =>
    obtain ⟨k1, v⟩ := p
    simp only [hasKey, Bool.or_eq_true, decide_eq_true_eq] at hk
    simp only [appendSnip, List.map_cons]
    by_cases he : k1 = k
    · simp [he, getD_cons]
    · rcases hk with hk | hk
      · exact absurd hk he
      · rw [if_neg he, getD_cons, getD_cons]
        dsimp only
        rw [if_neg he, if_neg he]
        exact ih hk

theorem processSentence_hit (e : DocItem) (mks : List String) (sentences : List Str)
    (d : Docs) (s : Str) (hkey : hasKey d e.name = true)
    (hkw : (mks.any fun kw => containsStr (lowerStr s) (lowerStr kw.data)) = true)
    (hlen : 10 < (cleanS s).length) :
    cleanS s ∈ getD (processSentence e mks sentences d s) e.name := by
  rw [processSentence]
  rw [if_pos hkw]
  by_cases hin : cleanS s ∈ getD d e.name
  · have hcond : ¬(cleanS s ≠ [] ∧ 10 < (cleanS s).length ∧ cleanS s ∉ getD d e.name) := by
      intro hc
      exact hc.2.2 hin
    rw [if_neg hcond]
    exact hin
  · have hne : cleanS s ≠ [] := by
      intro h0
      rw [h0] at hlen
      simp at hlen
    rw [if_pos ⟨hne, hlen, hin⟩]
    have hmem : cleanS s ∈ getD (appendSnip d e.name (cleanS s)) e.name := by
      rw [getD_appendSnip_self d e.name _ hkey]
      simp
    split
    · split
      · exact keeps_extendSnips _ e.name _ e.name _ hmem
      · exact hmem
    · exact hmem

theorem foldl_mem_of_hit_inv {α : Type} (f : Docs → α → Docs)
    (hk : ∀ d a, Keeps d (f d a)) (Inv : Docs → Prop)
    (hInv : ∀ d a, Inv d → Inv (f d a)) (l : List α) (a0 : α) (ha : a0 ∈ l)
    (k : String) (x : Str) (hhit : ∀ d, Inv d → x ∈ getD (f d a0) k) :
    ∀ d, Inv d → x ∈ getD (l.foldl f d) k := by
  induction l with
  | nil => cases ha
  | cons a t ih =>
    intro d hd
    rcases List.mem_cons.mp ha with heq | hmem
    · subst heq
      exact keeps_foldl f hk t _ k x (hhit d hd)
    · exact ih hmem (f d a) (hInv d a hd)

theorem processEntryChunk_hit (sentences : List Str) (tl : Str) (d : Docs) (e : DocItem)
    (s : Str) (kw : String) (hkw_in : kw ∈ e.keywords)
    (hskw : containsStr (lowerStr s) (lowerStr kw.data) = true)
    (htext : containsStr tl (lowerStr kw.data) = true)
    (hs : s ∈ sentences) (hlen : 10 < (cleanS s).length) :
    cleanS s ∈ getD (processEntryChunk sentences tl d e) e.name := by
  simp only [processEntryChunk]
  have hmem : kw ∈ e.keywords.filter (fun kw => containsStr tl (lowerStr kw.data)) :=
    List.mem_filter.mpr ⟨hkw_in, htext⟩
  rw [if_pos (List.ne_nil_of_mem hmem)]
  refine foldl_mem_of_hit_inv _ (keeps_processSentence e _ sentences)
    (fun d => hasKey d e.name = true)
    (fun d a h => hasKey_processSentence e _ sentences d a e.name h) sentences s hs e.name _
    (fun d hd => processSentence_hit e _ sentences d s hd
      (List.any_eq_true.mpr ⟨kw, hmem, hskw⟩) hlen)
    (ensureKey d e.name) (hasKey_ensureKey_self d e.name)

theorem keeps_extractPhase2 (tok : Str → List Str) (gd : GrantData) (d : Docs) :
    Keeps d (extractPhase2 tok gd d) := by
  unfold extractPhase2
  split
  · exact keeps_foldl _ (keeps_processRawEntry _ _) target_documentation d
  · exact keeps_refl d

theorem keeps_extractPhase3 (gd : GrantData) (d : Docs) :
    Keeps d (extractPhase3 gd d) := by
  unfold extractPhase3
  exact keeps_foldl _
    (fun d p => keeps_foldl _ (keeps_processListEntry p.1 p.2) target_documentation d)
    gd.lists d

theorem keeps_extractPhase4 (gd : GrantData) (d : Docs) :
    Keeps d (extractPhase4 gd d) := by
  unfold extractPhase4
  refine keeps_foldl _ (fun d di => ?_) gd.documentation d
  dsimp only
  split
  · exact keeps_refl d
  · exact keeps_foldl _ (keeps_processDocEntry (lowerStr di) di) target_documentation d

/-! ## Claim theorems -/

/-- C1 (matcher soundness): for every taxonomy entry of
`target_documentation` and every tokenized sentence of a content chunk
whose lowercase form contains one of that entry's keywords verbatim,
`extract_target_documentation` maps the entry's name to a snippet list
containing the cleaned sentence, provided the cleaned sentence passes the
minimum-length filter (length > 10).  The hypothesis `hsub` records that a
tokenizer returns subspans of its input text. -/
theorem matcher_soundness (tok : Str → List Str) (gd : GrantData) (e : DocItem)
    (kw : String) (ci : ContentItem) (s : Str)
    (he : e ∈ target_documentation) (hkw : kw ∈ e.keywords)
    (hci : ci ∈ gd.all_content) (hs : s ∈ tok ci.text)
    (hmatch : containsStr (lowerStr s) (lowerStr kw.data) = true)
    (hsub : containsStr (lowerStr ci.text) (lowerStr s) = true)
    (hlen : 10 < (cleanS s).length) :
    cleanS s ∈ getD (extract_target_documentation tok gd) e.name := by
  have hsne : lowerStr s ≠ [] := by
    intro h0
    have hs0 : s = [] := by
      cases s with
      | nil => rfl
      | cons a t => simp [lowerStr] at h0
    rw [hs0] at hlen
    have : cleanS ([] : Str) = [] := rfl
    rw [this] at hlen
    simp at hlen
  have htne : ci.text ≠ [] := by
    intro h0
    apply occurs_ne_nil hsne ((containsStr_iff _ _).mp hsub)
    simp [h0, lowerStr]
  have htext : containsStr (lowerStr ci.text) (lowerStr kw.data) = true :=
    containsStr_trans hmatch hsub
  have h1 : cleanS s ∈ getD (extractPhase1 tok gd []) e.name := by
    unfold extractPhase1
    refine foldl_mem_of_hit_inv (processChunk tok) (keeps_processChunk tok)
      (fun _ => True) (fun _ _ _ => trivial) gd.all_content ci hci e.name _ ?_ [] trivial
    intro d _
    rw [processChunk, if_neg htne]
    exact foldl_mem_of_hit_inv _ (keeps_processEntryChunk _ _) (fun _ => True)
      (fun _ _ _ => trivial) target_documentation e he e.name _
      (fun d _ => processEntryChunk_hit _ _ d e s kw hkw hmatch htext hs hlen) d trivial
  unfold extract_target_documentation
  exact mem_getD_filterNonempty _ _ _
    (keeps_extractPhase4 gd _ _ _
      (keeps_extractPhase3 gd _ _ _
        (keeps_extractPhase2 tok gd _ _ _ h1)))

/-- Witness for C1 at a concrete grant: one web chunk whose only sentence
mentions the DURC. -/
theorem matcher_soundness_witness :
    cleanS (str "Il DURC deve essere presentato insieme alla domanda.") ∈
      getD (extract_target_documentation splitSentences
        { all_content := [⟨str "web",
            str "Il DURC deve essere presentato insieme alla domanda."⟩] }) "DURC" := by
  have he : (⟨"DURC", ["DURC", "regolarità contributiva", "documento unico",
      "contributi"]⟩ : DocItem) ∈ target_documentation := by decide
  exact matcher_soundness splitSentences _ _ "DURC"
    ⟨str "web", str "Il DURC deve essere presentato insieme alla domanda."⟩
    (str "Il DURC deve essere presentato insieme alla domanda.") he (by decide)
    (by decide) (by decide) (by decide) (by decide) (by decide)

/-- C5 (totality of normalization): `clean_text` is a total function of the
model by construction, and `clean_text(None)` and `clean_text("")` both
return the empty string. -/
theorem clean_text_total : clean_text none = [] ∧ clean_text (some (str "")) = [] := by
  decide

/-- C6 (taxonomy invariant): no two entries of the static
`target_documentation` table share a name, and every entry's keyword list
is non-empty. -/
theorem target_documentation_invariant :
    (target_documentation.map DocItem.name).Nodup ∧
    ∀ e ∈ target_documentation, e.keywords ≠ [] := by
  constructor
  · decide
  · decide

/-- Witness for C6 at a concrete entry. -/
theorem target_documentation_invariant_witness :
    (⟨"DURC", ["DURC", "regolarità contributiva", "documento unico",
      "contributi"]⟩ : DocItem).keywords ≠ [] :=
  target_documentation_invariant.2 _ (by decide)

/-! ## Exact-value lemmas for the deduplication claim -/

theorem getD_append_nilval (d : Docs) (k k' : String) :
    getD (d ++ [(k, [])]) k' = getD d k' := by
  induction d with
  | nil =>
    simp only [List.nil_append, getD]
    split
    · rfl
    · rfl
  | cons p t ih =>
    simp only [List.cons_append, getD]
    split
    · rfl
    · exact ih

theorem getD_ensureKey (d : Docs) (k k' : String) :
    getD (ensureKey d k) k' = getD d k' := by
  unfold ensureKey
  split
  · rfl
  · exact getD_append_nilval d k k'

theorem getD_appendSnip_other (d : Docs) (k : String) (y : Str) (k' : String)
    (hne : k ≠ k') : getD (appendSnip d k y) k' = getD d k' := by
  induction d with
  | nil => rfl
  | cons p t ih =>
    simp only [appendSnip, List.map_cons] at ih ⊢
    by_cases he : p.1 = k
    · rw [if_pos he, getD_cons, getD_cons]
      dsimp only
      rw [if_neg (by rw [he]; exact hne), if_neg (by rw [he]; exact hne)]
      exact ih
    · rw [if_neg he, getD_cons, getD_cons]
      by_cases he' : p.1 = k'
      · rw [if_pos he', if_pos he']
      · rw [if_neg he', if_neg he']
        exact ih

theorem getD_extendSnips_other (d : Docs) (k : String) (ys : List Str) (k' : String)
    (hne : k ≠ k') : getD (extendSnips d k ys) k' = getD d k' := by
  induction d with
  | nil => rfl
  | cons p t ih =>
    simp only [extendSnips, List.map_cons] at ih ⊢
    by_cases he : p.1 = k
    · rw [if_pos he, getD_cons, getD_cons]
      dsimp only
      rw [if_neg (by rw [he]; exact hne), if_neg (by rw [he]; exact hne)]
      exact ih
    · rw [if_neg he, getD_cons, getD_cons]
      by_cases he' : p.1 = k'
      · rw [if_pos he', if_pos he']
      · rw [if_neg he', if_neg he']
        exact ih

theorem processSentence_getD_other (e : DocItem) (mks : List String)
    (sentences : List Str) (d : Docs) (s : Str) (n : String) (hne : e.name ≠ n) :
    getD (processSentence e mks sentences d s) n = getD d n := by
  rw [processSentence]
  split
  · split
    · split
      · split
        · rw [getD_extendSnips_other _ _ _ _ hne, getD_appendSnip_other _ _ _ _ hne]
        · rw [getD_appendSnip_other _ _ _ _ hne]
      · rw [getD_appendSnip_other _ _ _ _ hne]
    · rfl
  · rfl

theorem foldl_getD_other {α : Type} (f : Docs → α → Docs) (n : String)
    (hf : ∀ d a, getD (f d a) n = getD d n) (l : List α) (d : Docs) :
    getD (l.foldl f d) n = getD d n := by
  induction l generalizing d with
  | nil => rfl
  | cons a t ih => rw [List.foldl_cons, ih, hf]

theorem processEntryChunk_getD_other (sentences : List Str) (tl : Str) (d : Docs)
    (e : DocItem) (n : String) (hne : e.name ≠ n) :
    getD (processEntryChunk sentences tl d e) n = getD d n := by
  rw [processEntryChunk]
  split
  · rw [foldl_getD_other _ n (fun d a => processSentence_getD_other e _ sentences d a n hne),
      getD_ensureKey]
  · rw [getD_ensureKey]

theorem getD_filter_of_ne_nil (d : Docs) (k : String) (hne : getD d k ≠ []) :
    getD (d.filter (fun p => decide (p.2 ≠ []))) k = getD d k := by
  induction d with
  | nil => rfl
  | cons p t ih =>
    rw [getD_cons] at hne ⊢
    rw [List.filter_cons]
    by_cases he : p.1 = k
    · rw [if_pos he] at hne ⊢
      rw [if_pos (by simpa using hne), getD_cons, if_pos he]
    · rw [if_neg he] at hne ⊢
      split
      · rw [getD_cons, if_neg he]
        exact ih hne
      · exact ih hne

theorem sentencesLookahead_single (s : Str) : sentencesLookahead [s] s = [] := by
  simp [sentencesLookahead, idxOf]

theorem processEntryChunk_single_exact (s : Str) (d : Docs) (e : DocItem) (kw : String)
    (hkw : kw ∈ e.keywords)
    (hmatch : containsStr (lowerStr s) (lowerStr kw.data) = true) :
    getD (processEntryChunk [s] (lowerStr s) d e) e.name =
      if cleanS s ≠ [] ∧ 10 < (cleanS s).length ∧ cleanS s ∉ getD d e.name then
        getD d e.name ++ [cleanS s]
      else getD d e.name := by
  rw [processEntryChunk]
  have hmem : kw ∈ e.keywords.filter (fun kw => containsStr (lowerStr s) (lowerStr kw.data)) :=
    List.mem_filter.mpr ⟨hkw, hmatch⟩
  rw [if_pos (List.ne_nil_of_mem hmem)]
  rw [List.foldl_cons, List.foldl_nil, processSentence]
  rw [if_pos (List.any_eq_true.mpr ⟨kw, hmem, hmatch⟩)]
  rw [getD_ensureKey]
  split
  · rw [sentencesLookahead_single]
    have hk := hasKey_ensureKey_self d e.name
    split
    · rw [if_neg (by simp)]
      rw [getD_appendSnip_self _ _ _ hk, getD_ensureKey]
    · rw [getD_appendSnip_self _ _ _ hk, getD_ensureKey]
  · rw [getD_ensureKey]

theorem foldl_getD_other_mem {α : Type} (f : Docs → α → Docs) (n : String) :
    ∀ (l : List α), (∀ d a, a ∈ l → getD (f d a) n = getD d n) →
      ∀ d : Docs, getD (l.foldl f d) n = getD d n := by
  intro l
  induction l with
  | nil => intro _ d; rfl
  | cons a t ih =>
    intro hf d
    rw [List.foldl_cons, ih (fun d a ha => hf d a (List.mem_cons_of_mem _ ha)) (f d a),
      hf d a (List.mem_cons_self a t)]

/-- C2 amended (two-source deduplication): feeding the exact same sentence
from two different content chunks yields the cleaned sentence exactly once
in the matched entry's snippet list.  (The general "snippets are
deduplicated by exact equality" claim fails through the list-lookahead
`extend`, see the counterexample.) -/
theorem dedup_two_chunks (tok : Str → List Str) (s : Str) (e : DocItem) (kw : String)
    (he : e ∈ target_documentation) (hkw : kw ∈ e.keywords) (htok : tok s = [s])
    (hmatch : containsStr (lowerStr s) (lowerStr kw.data) = true)
    (hlen : 10 < (cleanS s).length) :
    List.count (cleanS s)
      (getD (extract_target_documentation tok
        { all_content := [⟨str "web", s⟩, ⟨str "pdf", s⟩] }) e.name) = 1 := by
  have hcne : cleanS s ≠ [] := by
    intro h0
    rw [h0] at hlen
    simp at hlen
  have hsne : s ≠ [] := by
    intro h0
    rw [h0] at hlen
    have h1 : cleanS ([] : Str) = [] := rfl
    rw [h1] at hlen
    simp at hlen
  obtain ⟨l1, l2, hdec⟩ := List.append_of_mem he
  have hnd : (target_documentation.map DocItem.name).Nodup := by decide
  rw [hdec, List.map_append, List.map_cons, List.nodup_append] at hnd
  obtain ⟨-, hnd2, hdisj⟩ := hnd
  have hl1 : ∀ e' ∈ l1, e'.name ≠ e.name := by
    intro e' h' heq
    exact hdisj (List.mem_map_of_mem DocItem.name h')
      (by rw [heq]; exact List.mem_cons_self _ _)
  have hl2 : ∀ e' ∈ l2, e'.name ≠ e.name := by
    intro e' h' heq
    exact (List.nodup_cons.mp hnd2).1 (heq ▸ List.mem_map_of_mem DocItem.name h')
  have hchunk : ∀ (d : Docs) (lbl : Str),
      getD (processChunk tok d ⟨lbl, s⟩) e.name =
        if cleanS s ≠ [] ∧ 10 < (cleanS s).length ∧ cleanS s ∉ getD d e.name then
          getD d e.name ++ [cleanS s]
        else getD d e.name := by
    intro d lbl
    rw [processChunk]
    dsimp only
    rw [if_neg hsne, htok, hdec, List.foldl_append, List.foldl_cons]
    rw [foldl_getD_other_mem _ _ l2
      (fun d a ha => processEntryChunk_getD_other _ _ d a e.name (hl2 a ha))]
    rw [processEntryChunk_single_exact s _ e kw hkw hmatch]
    rw [foldl_getD_other_mem _ _ l1
      (fun d a ha => processEntryChunk_getD_other _ _ d a e.name (hl1 a ha))]
  have hstep1 : getD (processChunk tok [] ⟨str "web", s⟩) e.name = [cleanS s] := by
    rw [hchunk]
    have hinit0 : getD ([] : Docs) e.name = [] := rfl
    rw [hinit0, if_pos ⟨hcne, hlen, by simp⟩]
    exact List.nil_append _
  have hstep2 : getD (processChunk tok (processChunk tok [] ⟨str "web", s⟩)
      ⟨str "pdf", s⟩) e.name = [cleanS s] := by
    rw [hchunk, hstep1, if_neg (fun hc => hc.2.2 (List.mem_singleton_self _))]
  have hget : getD (extractPhase1 tok
      { all_content := [⟨str "web", s⟩, ⟨str "pdf", s⟩] } []) e.name = [cleanS s] := by
    rw [extractPhase1]
    dsimp only
    rw [List.foldl_cons, List.foldl_cons, List.foldl_nil]
    exact hstep2
  rw [extract_target_documentation]
  have hp2 : extractPhase2 tok
      { all_content := [⟨str "web", s⟩, ⟨str "pdf", s⟩] }
      (extractPhase1 tok { all_content := [⟨str "web", s⟩, ⟨str "pdf", s⟩] } []) =
      extractPhase1 tok { all_content := [⟨str "web", s⟩, ⟨str "pdf", s⟩] } [] := by
    rw [extractPhase2]
    dsimp only
    rw [if_neg (by simp)]
  rw [hp2, extractPhase3, extractPhase4]
  dsimp only
  rw [List.foldl_nil, List.foldl_nil]
  rw [getD_filter_of_ne_nil _ _ (by rw [hget]; simp), hget]
  simp

/-- Witness for the amended C2 at a concrete sentence fed from two sources. -/
theorem dedup_two_chunks_witness :
    List.count (cleanS (str "Il DURC deve essere presentato insieme alla domanda."))
      (getD (extract_target_documentation splitSentences
        { all_content := [⟨str "web", str "Il DURC deve essere presentato insieme alla domanda."⟩,
                          ⟨str "pdf", str "Il DURC deve essere presentato insieme alla domanda."⟩] })
        "DURC") = 1 :=
  dedup_two_chunks splitSentences (str "Il DURC deve essere presentato insieme alla domanda.")
    ⟨"DURC", ["DURC", "regolarità contributiva", "documento unico", "contributi"]⟩ "DURC"
    (by decide) (by decide) (by decide) (by decide) (by decide)

/-- C2 counterexample: the claim that snippets within a document type are
deduplicated by exact string equality is false — a list-header sentence
followed by two identical list items stores the identical cleaned item
twice through the lookahead `extend`, which performs no membership check. -/
theorem dedup_counterexample :
    ¬ (getD (extract_target_documentation splitSentences
        { all_content := [⟨str "web",
            str "Presentare la scheda progettuale seguente. - abcdefghijk scheda. - abcdefghijk scheda."⟩] })
        "scheda progettuale").Nodup := by
  decide

/-! ## The minimum-length invariant (C7) -/

/-- Every snippet stored anywhere in the dictionary is longer than 10. -/
def InvLen (d : Docs) : Prop := ∀ p ∈ d, ∀ x ∈ p.2, 10 < x.length

theorem invLen_nil : InvLen ([] : Docs) := by
  intro p hp
  cases hp

theorem invLen_ensureKey {d : Docs} (h : InvLen d) (k : String) :
    InvLen (ensureKey d k) := by
  unfold ensureKey
  split
  · exact h
  · intro p hp x hx
    rcases List.mem_append.mp hp with hp | hp
    · exact h p hp x hx
    · rcases List.mem_singleton.mp hp with rfl
      cases hx

theorem invLen_appendSnip {d : Docs} (h : InvLen d) (k : String) {y : Str}
    (hy : 10 < y.length) : InvLen (appendSnip d k y) := by
  intro p hp x hx
  rcases List.mem_map.mp hp with ⟨q, hq, rfl⟩
  split at hx
  · rcases List.mem_append.mp hx with hx | hx
    · exact h q hq x hx
    · rcases List.mem_singleton.mp hx with rfl
      exact hy
  · exact h q hq x hx

theorem foldl_pres {α : Type} (f : Docs → α → Docs) (P : Docs → Prop) :
    ∀ (l : List α), (∀ d a, a ∈ l → P d → P (f d a)) → ∀ d, P d → P (l.foldl f d) := by
  intro l
  induction l with
  | nil => intro _ d h; exact h
  | cons a t ih =>
    intro hf d h
    exact ih (fun d a ha => hf d a (List.mem_cons_of_mem _ ha)) (f d a)
      (hf d a (List.mem_cons_self a t) h)

theorem sentencesLookahead_eq_nil {sentences : List Str}
    (hls : ∀ ns ∈ sentences, matchesListItem ns = false) (s : Str) :
    sentencesLookahead sentences s = [] := by
  unfold sentencesLookahead
  have hfil : ((sentences.drop (idxOf s sentences + 1)).take 5).filter matchesListItem = [] := by
    rw [List.filter_eq_nil]
    intro a ha
    have : a ∈ sentences :=
      List.drop_subset _ _ (List.take_subset _ _ ha)
    simp [hls a this]
  rw [hfil]
  rfl

theorem invLen_processSentence (e : DocItem) (mks : List String) {sentences : List Str}
    (hls : ∀ ns ∈ sentences, matchesListItem ns = false) {d : Docs} (h : InvLen d)
    (s : Str) : InvLen (processSentence e mks sentences d s) := by
  rw [processSentence]
  split
  · split
    · rename_i hguard
      split
      · rw [sentencesLookahead_eq_nil hls s, if_neg (by simp)]
        exact invLen_appendSnip h e.name hguard.2.1
      · exact invLen_appendSnip h e.name hguard.2.1
    · exact h
  · exact h

theorem invLen_processEntryChunk {sentences : List Str}
    (hls : ∀ ns ∈ sentences, matchesListItem ns = false) (tl : Str) {d : Docs}
    (h : InvLen d) (e : DocItem) : InvLen (processEntryChunk sentences tl d e) := by
  rw [processEntryChunk]
  split
  · exact foldl_pres _ InvLen sentences
      (fun d a _ hd => invLen_processSentence e _ hls hd a) _ (invLen_ensureKey h e.name)
  · exact invLen_ensureKey h e.name

theorem invLen_processChunk (tok : Str → List Str) {d : Docs} (h : InvLen d)
    {ci : ContentItem} (hls : ∀ ns ∈ tok ci.text, matchesListItem ns = false) :
    InvLen (processChunk tok d ci) := by
  rw [processChunk]
  split
  · exact h
  · exact foldl_pres _ InvLen target_documentation
      (fun d a _ hd => invLen_processEntryChunk hls _ hd a) _ h

theorem invLen_processRawSentence (e : DocItem) (mks : List String) {sentences : List Str}
    (hls : ∀ ns ∈ sentences, matchesListItem ns = false) {d : Docs} (h : InvLen d)
    (s : Str) : InvLen (processRawSentence e mks sentences d s) := by
  rw [processRawSentence]
  split
  · split
    · rename_i hguard
      refine foldl_pres _ InvLen _ (fun d4 ns hns hd => ?_) _
        (invLen_appendSnip h e.name (by omega))
      rw [processRawLookahead]
      have hns' : ns ∈ sentences :=
        List.drop_subset _ _ (List.take_subset _ _ hns)
      rw [hls ns hns']
      simp only [Bool.false_eq_true, if_false]
      exact hd
    · exact h
  · exact h

theorem invLen_processRawEntry {sentences : List Str}
    (hls : ∀ ns ∈ sentences, matchesListItem ns = false) (rl : Str) {d : Docs}
    (h : InvLen d) (e : DocItem) : InvLen (processRawEntry sentences rl d e) := by
  rw [processRawEntry]
  split
  · exact invLen_ensureKey h e.name
  · split
    · exact foldl_pres _ InvLen sentences
        (fun d a _ hd => invLen_processRawSentence e _ hls hd a) _ (invLen_ensureKey h e.name)
    · exact invLen_ensureKey h e.name

/-- C7 amended (snippet minimum length, sentence paths): when the grant
data carries no `lists` and no `documentation` entries and no tokenized
sentence is shaped like a list item (so the unchecked lookahead and
list/documentation paths never fire), every snippet stored by
`extract_target_documentation` has length greater than 10 — the chunk
phase enforces > 10 and the raw-text phase > 15.  Without those
restrictions the bound fails; see the counterexample. -/
theorem snippet_min_length (tok : Str → List Str) (gd : GrantData)
    (hlists : gd.lists = []) (hdocs : gd.documentation = [])
    (hchunks : ∀ ci ∈ gd.all_content, ∀ ns ∈ tok ci.text, matchesListItem ns = false)
    (hraw : ∀ ns ∈ tok gd.raw_text, matchesListItem ns = false) :
    ∀ p ∈ extract_target_documentation tok gd, ∀ x ∈ p.2, 10 < x.length := by
  have h1 : InvLen (extractPhase1 tok gd []) := by
    rw [extractPhase1]
    exact foldl_pres _ InvLen gd.all_content
      (fun d ci hci hd => invLen_processChunk tok hd (hchunks ci hci)) [] invLen_nil
  have h2 : InvLen (extractPhase2 tok gd (extractPhase1 tok gd [])) := by
    rw [extractPhase2]
    split
    · exact foldl_pres _ InvLen target_documentation
        (fun d a _ hd => invLen_processRawEntry hraw _ hd a) _ h1
    · exact h1
  have h3 : InvLen (extractPhase3 gd (extractPhase2 tok gd (extractPhase1 tok gd []))) := by
    rw [extractPhase3, hlists]
    exact h2
  have h4 : InvLen (extractPhase4 gd (extractPhase3 gd
      (extractPhase2 tok gd (extractPhase1 tok gd [])))) := by
    rw [extractPhase4, hdocs]
    exact h3
  intro p hp x hx
  rw [extract_target_documentation] at hp
  exact h4 p (List.mem_of_mem_filter hp) x hx

/-- Witness for the amended C7: a single chunk whose only sentence passes
the filter stores the cleaned sentence, which is longer than 10. -/
theorem snippet_min_length_witness :
    10 < (str "La visura cameraie deve essere presentata.").length :=
  snippet_min_length splitSentences
    { all_content := [⟨str "web", str "La visura camerale deve essere presentata."⟩] }
    (by decide) (by decide) (by decide) (by decide)
    ("visura camerale", [str "La visura cameraie deve essere presentata."]) (by decide)
    (str "La visura cameraie deve essere presentata.") (by decide)

/-- C7 counterexample: the minimum-length invariant as stated fails — a
two-character item of a matched list is stored as a snippet through the
lists path, which performs no length check. -/
theorem snippet_min_length_counterexample :
    ("visura camerale", [str "ab"]) ∈ extract_target_documentation splitSentences
      { lists := [(str "visura", [str "ab"])] } ∧ ¬ 10 < (str "ab").length := by
  constructor
  · decide
  · decide

/-! ## Idempotence groundwork: `dropWhile`, `pyStrip`, `collapseWs` -/

theorem dropWhileLen (p : Char → Bool) (l : Str) : (l.dropWhile p).length ≤ l.length := by
  induction l with
  | nil => simp
  | cons c t ih =>
    by_cases h : p c
    · simp only [List.dropWhile_cons, h, if_true]
      exact Nat.le_succ_of_le ih
    · simp [List.dropWhile_cons, h]

theorem dropWhile_dropWhile (p : Char → Bool) (l : Str) :
    (l.dropWhile p).dropWhile p = l.dropWhile p := by
  induction l with
  | nil => rfl
  | cons c t ih =>
    by_cases h : p c
    · simp only [List.dropWhile_cons, h, if_true]
      exact ih
    · simp [List.dropWhile_cons, h]

theorem dropWhile_suffix_exists (p : Char → Bool) (l : Str) :
    ∃ pre, l = pre ++ l.dropWhile p := by
  induction l with
  | nil => exact ⟨[], rfl⟩
  | cons c t ih =>
    by_cases h : p c
    · obtain ⟨pre, hpre⟩ := ih
      exact ⟨c :: pre, by simp [List.dropWhile_cons, h, ← hpre]⟩
    · exact ⟨[], by simp [List.dropWhile_cons, h]⟩

theorem dropWhile_head_false (p : Char → Bool) {l : Str} {c : Char} {r : Str}
    (h : l.dropWhile p = c :: r) : p c = false := by
  induction l with
  | nil => cases h
  | cons a t ih =>
    by_cases ha : p a
    · rw [List.dropWhile_cons, if_pos ha] at h
      exact ih h
    · rw [List.dropWhile_cons, if_neg ha] at h
      cases h
      simpa using ha

theorem dropWhile_id_of_head {p : Char → Bool} {l : Str}
    (h : l = [] ∨ ∃ c r, l = c :: r ∧ p c = false) : l.dropWhile p = l := by
  rcases h with rfl | ⟨c, r, rfl, hc⟩
  · rfl
  · simp [List.dropWhile_cons, hc]

/-- `l` has no leading and no trailing Python whitespace. -/
def WsStripped (l : Str) : Prop :=
  (l.dropWhile fun c => isPySpace c) = l ∧
  (l.reverse.dropWhile fun c => isPySpace c) = l.reverse

theorem pyStrip_of_stripped {l : Str} (h : WsStripped l) : pyStrip l = l := by
  rw [pyStrip, h.1, h.2, List.reverse_reverse]

theorem wsStripped_pyStrip (l : Str) : WsStripped (pyStrip l) := by
  constructor
  · rw [pyStrip]
    set m := l.dropWhile fun c => isPySpace c with hm
    rcases hcase : (m.reverse.dropWhile fun c => isPySpace c).reverse with _ | ⟨c, r⟩
    · simp
    · refine dropWhile_id_of_head (Or.inr ⟨c, r, rfl, ?_⟩)
      obtain ⟨pre, hpre⟩ := dropWhile_suffix_exists (fun c => isPySpace c) m.reverse
      have hm2 : m = (m.reverse.dropWhile fun c => isPySpace c).reverse ++ pre.reverse := by
        have := congrArg List.reverse hpre
        simpa using this
      rw [hcase] at hm2
      cases hm0 : m with
      | nil =>
        rw [hm0] at hm2
        cases hm2
      | cons a t =>
        have ha : isPySpace a = false :=
          dropWhile_head_false (fun c => isPySpace c) (l := l) (by rw [← hm]; exact hm0)
        rw [hm0, List.cons_append] at hm2
        cases hm2
        exact ha
  · rw [pyStrip, List.reverse_reverse]
    exact dropWhile_dropWhile _ _

/-- Along the list, any whitespace character is a plain space not followed
by further whitespace (the shape of `collapseWs` output). -/
def noWsRun : Str → Bool
  | [] => true
  | [c] => !isPySpace c || c = ' '
  | c :: d :: t => (!isPySpace c || (c = ' ' && !isPySpace d)) && noWsRun (d :: t)

theorem noWsRun_tail {c : Char} {t : Str} (h : noWsRun (c :: t) = true) :
    noWsRun t = true := by
  cases t with
  | nil => rfl
  | cons d r =>
    rw [noWsRun, Bool.and_eq_true] at h
    exact h.2

theorem noWsRun_cons_of {c : Char} {t : Str} (hc : isPySpace c = false)
    (ht : noWsRun t = true) : noWsRun (c :: t) = true := by
  cases t with
  | nil => simp [noWsRun, hc]
  | cons d r => simp [noWsRun, hc, ht]

theorem noWsRun_cons_space {t : Str}
    (hh : t = [] ∨ ∃ d r, t = d :: r ∧ isPySpace d = false)
    (ht : noWsRun t = true) : noWsRun (' ' :: t) = true := by
  rcases hh with rfl | ⟨d, r, rfl, hd⟩
  · rfl
  · simp [noWsRun, hd, ht]

theorem noWsRun_cons_space_elim {c : Char} {t : Str} (h : noWsRun (c :: t) = true)
    (hc : isPySpace c = true) :
    c = ' ' ∧ (t = [] ∨ ∃ d r, t = d :: r ∧ isPySpace d = false) := by
  cases t with
  | nil =>
    rw [noWsRun, hc] at h
    simp only [Bool.not_true, Bool.false_or, decide_eq_true_eq] at h
    exact ⟨h, Or.inl rfl⟩
  | cons d r =>
    rw [noWsRun, hc, Bool.and_eq_true] at h
    obtain ⟨h1, -⟩ := h
    simp only [Bool.not_true, Bool.false_or, Bool.and_eq_true, decide_eq_true_eq,
      Bool.not_eq_true'] at h1
    exact ⟨h1.1, Or.inr ⟨d, r, rfl, h1.2⟩⟩

theorem collapseWsGo_head (fuel : Nat) (e : Char) (r : Str) (he : isPySpace e = false) :
    ∃ r2, collapseWsGo fuel (e :: r) = e :: r2 := by
  cases fuel with
  | zero => exact ⟨r, rfl⟩
  | succ n =>
    rw [collapseWsGo, if_neg (by simp [he])]
    exact ⟨collapseWsGo n r, rfl⟩

theorem collapseWsGo_nil (fuel : Nat) : collapseWsGo fuel [] = [] := by
  cases fuel with
  | zero => rfl
  | succ n => rfl

theorem noWsRun_collapseWsGo : ∀ (fuel : Nat) (l : Str), l.length ≤ fuel →
    noWsRun (collapseWsGo fuel l) = true := by
  intro fuel
  induction fuel with
  | zero =>
    intro l hl
    rw [Nat.le_zero, List.length_eq_zero] at hl
    subst hl
    rfl
  | succ n ih =>
    intro l hl
    cases l with
    | nil => rfl
    | cons c t =>
      by_cases hc : isPySpace c
      · rw [collapseWsGo, if_pos hc]
        rcases hu : t.dropWhile (fun d => isPySpace d) with _ | ⟨e, r⟩
        · rw [collapseWsGo_nil]
          rfl
        · have he : isPySpace e = false := dropWhile_head_false _ hu
          have hlen : (e :: r).length ≤ n := by
            have h1 := congrArg List.length hu
            have h2 := dropWhileLen (fun d => isPySpace d) t
            simp only [List.length_cons] at h1 hl ⊢
            omega
          obtain ⟨r2, hr2⟩ := collapseWsGo_head n e r he
          apply noWsRun_cons_space
          · rw [hr2]
            exact Or.inr ⟨e, r2, rfl, he⟩
          · rw [← hu] at hlen ⊢
            exact ih _ hlen
      · rw [collapseWsGo, if_neg hc]
        apply noWsRun_cons_of (by simpa using hc)
        apply ih
        simp only [List.length_cons] at hl
        omega

theorem collapseWsGo_id : ∀ (fuel : Nat) (l : Str), noWsRun l = true →
    collapseWsGo fuel l = l := by
  intro fuel
  induction fuel with
  | zero => intro l _; rfl
  | succ n ih =>
    intro l hl
    cases l with
    | nil => rfl
    | cons c t =>
      by_cases hc : isPySpace c
      · obtain ⟨hsp, hh⟩ := noWsRun_cons_space_elim hl hc
        rw [collapseWsGo, if_pos hc, dropWhile_id_of_head hh, ih t (noWsRun_tail hl), hsp]
      · rw [collapseWsGo, if_neg hc]
        rw [ih t (noWsRun_tail hl)]

theorem noWsRun_dropWhile (p : Char → Bool) (l : Str) (h : noWsRun l = true) :
    noWsRun (l.dropWhile p) = true := by
  induction l with
  | nil => exact h
  | cons c t ih =>
    by_cases hc : p c
    · rw [List.dropWhile_cons, if_pos hc]
      exact ih (noWsRun_tail h)
    · rwa [List.dropWhile_cons, if_neg hc]

theorem noWsRun_append_left : ∀ (l1 l2 : Str), noWsRun (l1 ++ l2) = true →
    noWsRun l1 = true := by
  intro l1
  induction l1 with
  | nil => intro _ _; rfl
  | cons c t ih =>
    intro l2 h
    cases t with
    | nil =>
      cases l2 with
      | nil => exact h
      | cons d r =>
        simp only [List.cons_append, List.nil_append, noWsRun, Bool.and_eq_true] at h
        obtain ⟨h1, -⟩ := h
        cases hc : isPySpace c with
        | false => simp [noWsRun, hc]
        | true =>
          rw [hc] at h1
          simp only [Bool.not_true, Bool.false_or, Bool.and_eq_true, decide_eq_true_eq] at h1
          simp [noWsRun, hc, h1.1]
    | cons d r =>
      simp only [List.cons_append, noWsRun, Bool.and_eq_true] at h ⊢
      refine ⟨h.1, ih l2 ?_⟩
      simpa using h.2

theorem noWsRun_pyStrip (l : Str) (h : noWsRun l = true) :
    noWsRun (pyStrip l) = true := by
  rw [pyStrip]
  set m := l.dropWhile fun c => isPySpace c with hm
  have hm1 : noWsRun m = true := by
    rw [hm]
    exact noWsRun_dropWhile _ l h
  obtain ⟨pre, hpre⟩ := dropWhile_suffix_exists (fun c => isPySpace c) m.reverse
  have : m = (m.reverse.dropWhile fun c => isPySpace c).reverse ++ pre.reverse := by
    have := congrArg List.reverse hpre
    simpa using this
  exact noWsRun_append_left _ _ (this ▸ hm1)

theorem collapseWs_nw (y : Str) :
    collapseWs (normalize_whitespace (some y)) = normalize_whitespace (some y) := by
  rw [normalize_whitespace]
  exact collapseWsGo_id _ _
    (noWsRun_pyStrip _ (noWsRun_collapseWsGo y.length y (Nat.le_refl _)))

theorem nw_idem (y : Str) :
    normalize_whitespace (some (normalize_whitespace (some y))) =
      normalize_whitespace (some y) := by
  conv_lhs => rw [normalize_whitespace, collapseWs_nw]
  rw [normalize_whitespace]
  exact pyStrip_of_stripped (wsStripped_pyStrip _)

/-! ## A calm domain on which `clean_text` only normalizes whitespace -/

/-- The calm alphabet: a space or a lowercase ASCII letter other than the
substitution triggers `a`, `c`, `d`, `l`. -/
def calmChar (c : Char) : Bool := decide (c ∈ (str " befghijkmnopqrstuvwxyz"))

theorem calm_mem {c : Char} (h : calmChar c = true) :
    c ∈ str " befghijkmnopqrstuvwxyz" := of_decide_eq_true h

theorem mem_dropWhile_sub (p : Char → Bool) {l : Str} {x : Char}
    (h : x ∈ l.dropWhile p) : x ∈ l := by
  induction l with
  | nil => cases h
  | cons c t ih =>
    by_cases hc : p c
    · rw [List.dropWhile_cons, if_pos hc] at h
      exact List.mem_cons_of_mem _ (ih h)
    · rwa [List.dropWhile_cons, if_neg hc] at h

theorem mem_collapseWsGo {x : Char} : ∀ (fuel : Nat) (l : Str),
    x ∈ collapseWsGo fuel l → x = ' ' ∨ x ∈ l := by
  intro fuel
  induction fuel with
  | zero => intro l h; exact Or.inr h
  | succ n ih =>
    intro l h
    cases l with
    | nil => cases h
    | cons c t =>
      by_cases hc : isPySpace c
      · rw [collapseWsGo, if_pos hc] at h
        rcases List.mem_cons.mp h with rfl | h
        · exact Or.inl rfl
        · rcases ih _ h with h | h
          · exact Or.inl h
          · exact Or.inr (List.mem_cons_of_mem _ (mem_dropWhile_sub _ h))
      · rw [collapseWsGo, if_neg hc] at h
        rcases List.mem_cons.mp h with rfl | h
        · exact Or.inr (List.mem_cons_self _ _)
        · rcases ih _ h with h | h
          · exact Or.inl h
          · exact Or.inr (List.mem_cons_of_mem _ h)

theorem mem_pyStrip_sub {l : Str} {x : Char} (h : x ∈ pyStrip l) : x ∈ l := by
  rw [pyStrip] at h
  rw [List.mem_reverse] at h
  have h1 := mem_dropWhile_sub _ h
  rw [List.mem_reverse] at h1
  exact mem_dropWhile_sub _ h1

theorem calm_nw {y : Str} (h : ∀ c ∈ y, calmChar c = true) :
    ∀ c ∈ normalize_whitespace (some y), calmChar c = true := by
  intro c hc
  rw [normalize_whitespace] at hc
  rcases mem_collapseWsGo y.length y (mem_pyStrip_sub hc) with rfl | hc
  · decide
  · exact h c hc

theorem map_glyphFix_calm {l : Str} (h : ∀ c ∈ l, calmChar c = true) :
    l.map glyphFix = l := by
  induction l with
  | nil => rfl
  | cons c t ih =>
    have hg : ∀ x ∈ str " befghijkmnopqrstuvwxyz", glyphFix x = x := by decide
    rw [List.map_cons, hg c (calm_mem (h c (List.mem_cons_self _ _))),
      ih (fun x hx => h x (List.mem_cons_of_mem _ hx))]

theorem bulletFixGo_calm : ∀ (fuel : Nat) (l : Str), (∀ c ∈ l, calmChar c = true) →
    bulletFixGo fuel l = l := by
  intro fuel
  induction fuel with
  | zero => intro l _; rfl
  | succ n ih =>
    intro l h
    cases l with
    | nil => rfl
    | cons c t =>
      have hb : ∀ x ∈ str " befghijkmnopqrstuvwxyz", x ≠ '•' := by decide
      rw [bulletFixGo, if_neg (hb c (calm_mem (h c (List.mem_cons_self _ _))))]
      rw [ih t (fun x hx => h x (List.mem_cons_of_mem _ hx))]

theorem sentSpaceGo_calm : ∀ (fuel : Nat) (l : Str), (∀ c ∈ l, calmChar c = true) →
    sentSpaceGo fuel l = l := by
  intro fuel
  induction fuel with
  | zero => intro l _; rfl
  | succ n ih =>
    intro l h
    cases l with
    | nil => rfl
    | cons c t =>
      have hb : ∀ x ∈ str " befghijkmnopqrstuvwxyz",
          ¬(x = '.' ∨ x = '!' ∨ x = '?') := by decide
      have hcc : ¬c = '.' ∧ ¬c = '!' ∧ ¬c = '?' := by
        have := hb c (calm_mem (h c (List.mem_cons_self _ _)))
        tauto
      rw [sentSpaceGo, if_neg (by
        simp only [Bool.or_eq_true, decide_eq_true_eq]
        rintro ((h1 | h1) | h1)
        · exact hcc.1 h1
        · exact hcc.2.1 h1
        · exact hcc.2.2 h1)]
      rw [ih t (fun x hx => h x (List.mem_cons_of_mem _ hx))]

theorem calm_not_punct {c : Char} (h : calmChar c = true) : isPunct1 c = false := by
  have hb : ∀ x ∈ str " befghijkmnopqrstuvwxyz", isPunct1 x = false := by decide
  exact hb c (calm_mem h)

theorem punctRunGo_calm : ∀ (fuel : Nat) (l : Str), (∀ c ∈ l, calmChar c = true) →
    punctRunGo fuel l = l := by
  intro fuel
  induction fuel with
  | zero => intro l _; rfl
  | succ n ih =>
    intro l h
    cases l with
    | nil => rfl
    | cons c t =>
      rw [punctRunGo,
        if_neg (by simp [calm_not_punct (h c (List.mem_cons_self _ _))])]
      rw [ih t (fun x hx => h x (List.mem_cons_of_mem _ hx))]

theorem articleFixGo_calm : ∀ (fuel : Nat) (prev : Option Char) (l : Str),
    (∀ c ∈ l, calmChar c = true) → articleFixGo prev fuel l = l := by
  intro fuel
  induction fuel with
  | zero => intro prev l _; rfl
  | succ n ih =>
    intro prev l h
    cases l with
    | nil => rfl
    | cons c t =>
      have hb : ∀ x ∈ str " befghijkmnopqrstuvwxyz", ¬x = 'l' := by decide
      rw [articleFixGo.eq_def]
      dsimp only
      rw [if_neg (by
        simp only [Bool.and_eq_true, decide_eq_true_eq]
        rintro ⟨h1, -⟩
        exact hb c (calm_mem (h c (List.mem_cons_self _ _))) h1)]
      rw [ih (some c) t (fun x hx => h x (List.mem_cons_of_mem _ hx))]

theorem punctSpace1Go_calm : ∀ (fuel : Nat) (l : Str),
    (∀ c ∈ l, calmChar c = true) → punctSpace1Go fuel l = l := by
  intro fuel
  induction fuel with
  | zero => intro l _; rfl
  | succ n ih =>
    intro l h
    cases l with
    | nil => rfl
    | cons c t =>
      have hrec := ih t (fun x hx => h x (List.mem_cons_of_mem _ hx))
      by_cases hc : isPySpace c
      · rw [punctSpace1Go]
        rw [if_pos hc]
        rcases hu : t.dropWhile (fun d => isPySpace d) with _ | ⟨p, r2⟩
        · dsimp only
          rw [hrec]
        · dsimp only
          have hp : isPunct1 p = false := by
            have hmem : p ∈ t := mem_dropWhile_sub _ (hu ▸ List.mem_cons_self p r2)
            exact calm_not_punct (h p (List.mem_cons_of_mem _ hmem))
          rw [if_neg (by simp [hp]), hrec]
      · rw [punctSpace1Go, if_neg hc, hrec]

theorem punctSpace2Go_calm : ∀ (fuel : Nat) (l : Str),
    (∀ c ∈ l, calmChar c = true) → punctSpace2Go fuel l = l := by
  intro fuel
  induction fuel with
  | zero => intro l _; rfl
  | succ n ih =>
    intro l h
    cases l with
    | nil => rfl
    | cons c t =>
      rw [punctSpace2Go, if_neg (by
        simp only [Bool.and_eq_true]
        rintro ⟨h1, -⟩
        rw [calm_not_punct (h c (List.mem_cons_self _ _))] at h1
        cases h1)]
      rw [ih t (fun x hx => h x (List.mem_cons_of_mem _ hx))]

theorem leadingMarker_calm {l : Str} (h : ∀ c ∈ l, calmChar c = true) :
    leadingMarker l = l := by
  rw [leadingMarker]
  have htw : l.takeWhile isMarkerChar = [] := by
    cases l with
    | nil => rfl
    | cons c t =>
      have hb : ∀ x ∈ str " befghijkmnopqrstuvwxyz", isMarkerChar x = false := by decide
      rw [List.takeWhile_cons, hb c (calm_mem (h c (List.mem_cons_self _ _)))]
      rfl
  rw [if_pos htw]

theorem ocrL_calm : ∀ (l : Str), (∀ c ∈ l, calmChar c = true) → ocrL l = l := by
  intro l
  induction l with
  | nil => intro _; rfl
  | cons a t ih =>
    intro h
    cases t with
    | nil => rfl
    | cons b t2 =>
      cases t2 with
      | nil => rfl
      | cons c t3 =>
        have hb : ∀ x ∈ str " befghijkmnopqrstuvwxyz", ¬x = 'l' := by decide
        rw [ocrL, if_neg (by
          simp only [Bool.and_eq_true, decide_eq_true_eq]
          rintro ⟨⟨-, h1⟩, -⟩
          exact hb b (calm_mem (h b (List.mem_cons_of_mem _ (List.mem_cons_self _ _)))) h1)]
        rw [ih (fun x hx => h x (List.mem_cons_of_mem _ hx))]

theorem fixC0n_calm : ∀ (l : Str), (∀ c ∈ l, calmChar c = true) → fixC0n l = l := by
  intro l
  induction l with
  | nil => intro _; rfl
  | cons a t ih =>
    intro h
    cases t with
    | nil => rfl
    | cons b t2 =>
      cases t2 with
      | nil => rfl
      | cons c t3 =>
        have hb : ∀ x ∈ str " befghijkmnopqrstuvwxyz", ¬x = 'c' := by decide
        rw [fixC0n, if_neg (by
          simp only [Bool.and_eq_true, decide_eq_true_eq]
          rintro ⟨⟨h1, -⟩, -⟩
          exact hb a (calm_mem (h a (List.mem_cons_self _ _))) h1)]
        rw [ih (fun x hx => h x (List.mem_cons_of_mem _ hx))]

theorem fixD1_calm : ∀ (l : Str), (∀ c ∈ l, calmChar c = true) → fixD1 l = l := by
  intro l
  induction l with
  | nil => intro _; rfl
  | cons a t ih =>
    intro h
    cases t with
    | nil => rfl
    | cons b t2 =>
      have hb : ∀ x ∈ str " befghijkmnopqrstuvwxyz", ¬x = 'd' := by decide
      rw [fixD1, if_neg (by
        simp only [Bool.and_eq_true, decide_eq_true_eq]
        rintro ⟨h1, -⟩
        exact hb a (calm_mem (h a (List.mem_cons_self _ _))) h1)]
      rw [ih (fun x hx => h x (List.mem_cons_of_mem _ hx))]

theorem stemNormGo_calm (up lo : Char) (stem fins rep : Str)
    (hup : ∀ x ∈ str " befghijkmnopqrstuvwxyz", ¬x = up)
    (hlo : ∀ x ∈ str " befghijkmnopqrstuvwxyz", ¬x = lo) :
    ∀ (fuel : Nat) (prev : Option Char) (l : Str),
    (∀ c ∈ l, calmChar c = true) → stemNormGo up lo stem fins rep prev fuel l = l := by
  intro fuel
  induction fuel with
  | zero => intro prev l _; rfl
  | succ n ih =>
    intro prev l h
    cases l with
    | nil => rfl
    | cons c t =>
      rw [stemNormGo.eq_def]
      dsimp only
      rw [if_neg (by
        simp only [Bool.and_eq_true, Bool.or_eq_true, decide_eq_true_eq]
        rintro ⟨⟨h1 | h1, -⟩, -⟩
        · exact hup c (calm_mem (h c (List.mem_cons_self _ _))) h1
        · exact hlo c (calm_mem (h c (List.mem_cons_self _ _))) h1)]
      rw [ih (some c) t (fun x hx => h x (List.mem_cons_of_mem _ hx))]

/-- On calm input, the whole `clean_text` pipeline only normalizes
whitespace: every other step is the identity there. -/
theorem cleanS_calm {x : Str} (h : ∀ c ∈ x, calmChar c = true) :
    clean_text (some x) = normalize_whitespace (some x) := by
  have h0 := calm_nw h
  simp only [clean_text, nfkcNormalize, bulletFix, sentSpace, punctRun, articleFix,
    punctSpace1, punctSpace2, stemNorm]
  rw [map_glyphFix_calm h0,
    bulletFixGo_calm _ _ h0,
    sentSpaceGo_calm _ _ h0,
    punctRunGo_calm _ _ h0,
    articleFixGo_calm _ none _ h0,
    punctSpace1Go_calm _ _ h0,
    punctSpace2Go_calm _ _ h0,
    leadingMarker_calm h0,
    ocrL_calm _ h0,
    fixC0n_calm _ h0,
    fixD1_calm _ h0,
    stemNormGo_calm 'A' 'a' _ _ _ (by decide) (by decide) _ none _ h0,
    stemNormGo_calm 'D' 'd' _ _ _ (by decide) (by decide) _ none _ h0,
    stemNormGo_calm 'D' 'd' _ _ _ (by decide) (by decide) _ none _ h0,
    stemNormGo_calm 'C' 'c' _ _ _ (by decide) (by decide) _ none _ h0]
  rw [normalize_whitespace]
  exact pyStrip_of_stripped (wsStripped_pyStrip _)

/-- C4 amended (restricted idempotence of normalization): `clean_text` is
not idempotent in general — the OCR `l`→`i` substitution can re-fire on
its own output — but it is idempotent on strings over the calm alphabet
(spaces and lowercase letters other than the substitution triggers
`a`, `c`, `d`, `l`), where it reduces to whitespace normalization. -/
theorem clean_text_idem_calm (x : Str) (h : ∀ c ∈ x, calmChar c = true) :
    clean_text (some (clean_text (some x))) = clean_text (some x) := by
  rw [cleanS_calm h, cleanS_calm (calm_nw h), nw_idem]

/-- Witness for the amended C4 on a calm string with a double space. -/
theorem clean_text_idem_calm_witness :
    clean_text (some (clean_text (some (str "note  tre spesso")))) =
      clean_text (some (str "note  tre spesso")) :=
  clean_text_idem_calm _ (by decide)

/-- C4 counterexample: `clean_text` is not idempotent — on "allo" the OCR
`l`→`i` fix produces "ailo", and a second pass turns it into "aiio". -/
theorem clean_text_idem_counterexample :
    clean_text (some (clean_text (some (str "allo")))) ≠ clean_text (some (str "allo")) := by
  decide

/-- The display score as C8 words it: snippet count, plus 5 when the group
name contains one of the priority items verbatim, plus 2 on
obligation-language.  Written from the claim's words (for comparison with
the source's `scoreItem`, which tests each priority string against the
lowercased group name, so its two mixed-case priority entries can never
fire). -/
def specScoreC8 (key : String) (items : List Str) : Nat :=
  let base := items.length
  let base := if priority_items.any (fun p => containsStr key.data p.data) then base + 5
              else base
  if items.any (fun it => mandatory_patterns.any (fun pat => containsStr (lowerStr it) pat.data))
  then base + 2 else base

/-- C8 amended (display ranking): the document-type sections are ordered by
descending score, where the score is the snippet count, plus 5 when the
lowercased group name contains one of the priority strings verbatim (so the
mixed-case entries "Business plan" and "DICHIARAZIONE D'INTENTI" never
receive the boost), plus 2 when a snippet contains obligation-language. -/
theorem sort_documentation_ranking (grouped : Docs) :
    (sort_documentation_items grouped).Perm (grouped.map Prod.fst) ∧
    (sort_documentation_items grouped).Pairwise
      (fun a b => scoreItem b (getD grouped b) ≤ scoreItem a (getD grouped a)) := by
  constructor
  · exact List.perm_insertionSort _ _
  · haveI : IsTotal String
        (fun a b => scoreItem b (getD grouped b) ≤ scoreItem a (getD grouped a)) :=
      ⟨fun a b => Nat.le_total _ _⟩
    haveI : IsTrans String
        (fun a b => scoreItem b (getD grouped b) ≤ scoreItem a (getD grouped a)) :=
      ⟨fun _ _ _ hab hbc => Nat.le_trans hbc hab⟩
    exact List.sorted_insertionSort _ _

/-- C8 counterexample: with the score as the claim words it, the group
"Business plan" (one snippet, priority boost 5 → score 6) should precede
"DURC" (two snippets → score 2); the code orders DURC first because its
case-sensitive test never grants "Business plan" the boost. -/
theorem sort_ranking_counterexample :
    ¬ (sort_documentation_items
        [("Business plan", [str "piano x"]), ("DURC", [str "doc a", str "doc b"])]).Pairwise
      (fun a b =>
        specScoreC8 b
          (getD [("Business plan", [str "piano x"]), ("DURC", [str "doc a", str "doc b"])] b) ≤
        specScoreC8 a
          (getD [("Business plan", [str "piano x"]), ("DURC", [str "doc a", str "doc b"])] a)) := by
  decide

/-! ## C9: near-duplicate collapse -/

/-- The similarity condition as the claim words it, written from the spec
for comparison with the source's `is_similar_to_previous`: case-insensitive
character-set overlap above 80% and lengths within 30% of each other. -/
def specSimilarC9 (current previous : Str) : Prop :=
  (((((lowerStr current).dedup.filter (fun c => c ∈ (lowerStr previous).dedup)).length : ℚ) /
      (max ((lowerStr current).dedup.length) ((lowerStr previous).dedup.length) : ℚ) > 8/10)) ∧
  |((lowerStr current).length : ℚ) - ((lowerStr previous).length : ℚ)| <
      3/10 * (max ((lowerStr current).length) ((lowerStr previous).length) : ℚ)

/-- **C9** (amended): the similarity predicate returns `true` exactly when
the claim's overlap and length conditions hold, and a snippet similar to
the snippet immediately before it in its group's list is dropped by the
renderer; the collapse compares only consecutive snippets, so two similar
snippets separated by a dissimilar one are both rendered (see the
counterexample). -/
theorem similar_collapse :
    (∀ current previous : Str,
        is_similar_to_previous current previous = true ↔ specSimilarC9 current previous) ∧
    ∀ (prev c : Str) (t : List Str), specSimilarC9 c prev →
        renderGroupLines.go prev (c :: t) = renderGroupLines.go c t := by
  have hiff : ∀ current previous : Str,
      is_similar_to_previous current previous = true ↔ specSimilarC9 current previous := by
    intro current previous
    simp only [is_similar_to_previous, specSimilarC9]
    split_ifs with h1 h2
    · exact iff_of_true rfl ⟨h1, h2⟩
    · exact iff_of_false (by simp) (fun hc => h2 hc.2)
    · exact iff_of_false (by simp) (fun hc => h1 hc.1)
  refine ⟨hiff, fun prev c t h => ?_⟩
  simp only [renderGroupLines.go, (hiff c prev).mpr h, if_true]

/-- Witness for `similar_collapse`: the characterization at a concrete pair,
and the collapse of a concrete adjacent similar pair. -/
theorem similar_collapse_witness :
    (is_similar_to_previous (str "aaaa bbbb cccc") (str "cccc bbbb aaaa") = true ↔
        specSimilarC9 (str "aaaa bbbb cccc") (str "cccc bbbb aaaa")) ∧
    renderGroupLines.go (str "aaaa bbbb cccc") [str "cccc bbbb aaaa"] =
        renderGroupLines.go (str "cccc bbbb aaaa") [] :=
  ⟨similar_collapse.1 _ _, similar_collapse.2 _ _ _ (by unfold specSimilarC9; decide)⟩

/-- **C9** counterexample: `"cccc bbbb aaaa"` satisfies the overlap and
length conditions against `"aaaa bbbb cccc"`, yet with a dissimilar snippet
between them the rendered report carries both as bullets: the near-duplicate
filter only compares each snippet to its immediate predecessor. -/
theorem similar_collapse_counterexample :
    is_similar_to_previous (str "cccc bbbb aaaa") (str "aaaa bbbb cccc") = true ∧
    (str "- aaaa bbbb cccc") ∈ generate_documentation_content_parts (str "ts")
      [("DURC", [str "aaaa bbbb cccc", str "dddd eeee ffff gggg", str "cccc bbbb aaaa"])]
      (str "T") ∧
    (str "- cccc bbbb aaaa") ∈ generate_documentation_content_parts (str "ts")
      [("DURC", [str "aaaa bbbb cccc", str "dddd eeee ffff gggg", str "cccc bbbb aaaa"])]
      (str "T") := by
  decide

/-! ## C3: non-empty output -/

theorem occurs_self (p : Str) : Occurs p p := ⟨[], [], by simp⟩

theorem occurs_cons {p l : Str} (c : Char) (h : Occurs p l) : Occurs p (c :: l) := by
  obtain ⟨a, b, rfl⟩ := h
  exact ⟨c :: a, b, rfl⟩

/-- A member of the joined list occurs in the `"\n".join` of the list. -/
theorem occurs_joinNl {x : Str} : ∀ {l : List Str}, x ∈ l → Occurs x (joinNl l) := by
  intro l
  induction l with
  | nil => intro h; cases h
  | cons p t ih =>
    intro h
    cases t with
    | nil =>
      rw [List.mem_singleton] at h
      subst h
      exact occurs_self x
    | cons q r =>
      rcases List.mem_cons.mp h with heq | h2
      · subst heq
        exact occurs_append_left _ (occurs_self x)
      · exact occurs_append_right p (occurs_cons '\n' (ih h2))

theorem strAppend_ne_nil {a : Str} (b : Str) (ha : a ≠ []) : a ++ b ≠ [] := by
  intro h
  exact ha (List.append_eq_nil.mp h).1

theorem joinNl_ne_nil {p : Str} (t : List Str) (hp : p ≠ []) : joinNl (p :: t) ≠ [] := by
  cases t with
  | nil => simpa [joinNl] using hp
  | cons q r => simp [joinNl]

/-- **C3**: merging no web data and no PDF data yields the minimal grant
record, whose rendered summary contains the fallback standard-documents
sentence; and every grant's summary is a non-empty string, whatever the
merged data. -/
theorem nonempty_output (now : Str) (tok : Str → List Str) :
    (∃ gd : GrantData, merge_grant_data tok [] [] = Except.ok gd ∧
      Occurs (str "Documentazione da verificare sul sito ufficiale del bando.")
        (generate_summary now tok gd)) ∧
    ∀ gd : GrantData, generate_summary now tok gd ≠ [] := by
  constructor
  · refine ⟨{ title := str "Informazioni Bando",
              overview := str "Informazioni sul bando in corso di elaborazione.",
              requirements := [str "È necessaria consultazione diretta del bando per dettagli specifici."],
              documentation := [str "Documentazione da verificare sul sito ufficiale del bando."] },
            rfl, ?_⟩
    have hex : extract_target_documentation tok
        { title := str "Informazioni Bando",
          overview := str "Informazioni sul bando in corso di elaborazione.",
          requirements := [str "È necessaria consultazione diretta del bando per dettagli specifici."],
          documentation := [str "Documentazione da verificare sul sito ufficiale del bando."] } = [] := by
      unfold extract_target_documentation
      rw [show extractPhase1 tok
        { title := str "Informazioni Bando",
          overview := str "Informazioni sul bando in corso di elaborazione.",
          requirements := [str "È necessaria consultazione diretta del bando per dettagli specifici."],
          documentation := [str "Documentazione da verificare sul sito ufficiale del bando."] } [] = [] from rfl]
      rw [show extractPhase2 tok
        { title := str "Informazioni Bando",
          overview := str "Informazioni sul bando in corso di elaborazione.",
          requirements := [str "È necessaria consultazione diretta del bando per dettagli specifici."],
          documentation := [str "Documentazione da verificare sul sito ufficiale del bando."] } [] = [] from rfl]
      rw [show extractPhase3
        { title := str "Informazioni Bando",
          overview := str "Informazioni sul bando in corso di elaborazione.",
          requirements := [str "È necessaria consultazione diretta del bando per dettagli specifici."],
          documentation := [str "Documentazione da verificare sul sito ufficiale del bando."] } [] = [] from rfl]
      decide
    have e : generate_summary now tok
        { title := str "Informazioni Bando",
          overview := str "Informazioni sul bando in corso di elaborazione.",
          requirements := [str "È necessaria consultazione diretta del bando per dettagli specifici."],
          documentation := [str "Documentazione da verificare sul sito ufficiale del bando."] } =
        joinNl [str "# Documentazione Necessaria per " ++ str "Informazioni Bando",
                str "\nLe seguenti informazioni sulla documentazione sono state trovate nel bando:\n",
                str "- " ++ str "Documentazione da verificare sul sito ufficiale del bando.",
                str "\n_Ultimo aggiornamento: " ++ now ++ str "_",
                str "\n**Nota**: Si consiglia di verificare sempre la documentazione richiesta consultando il testo completo del bando."] := by
      simp only [generate_summary]
      rw [if_pos hex, if_pos (show ([str "Documentazione da verificare sul sito ufficiale del bando."] : List Str) ≠ [] from by decide)]
      rfl
    rw [e]
    exact occurs_trans (occurs_append_right (str "- ") (occurs_self _))
      (occurs_joinNl (List.mem_cons_of_mem _ (List.mem_cons_of_mem _ (List.mem_cons_self _ _))))
  · intro gd
    by_cases hex : extract_target_documentation tok gd = []
    · simp only [generate_summary]
      rw [if_pos hex]
      by_cases hdoc : gd.documentation ≠ []
      · rw [if_pos hdoc]
        simp only [List.cons_append]
        exact joinNl_ne_nil _ (strAppend_ne_nil _ (by decide))
      · rw [if_neg hdoc]
        exact strAppend_ne_nil _ (strAppend_ne_nil _ (strAppend_ne_nil _
          (strAppend_ne_nil _ (by decide))))
    · simp only [generate_summary]
      rw [if_neg hex]
      simp only [generate_documentation_content]
      rw [if_neg hex]
      simp only [generate_documentation_content_parts, List.cons_append]
      refine joinNl_ne_nil _ ?_
      split_ifs with ht
      · exact strAppend_ne_nil _ (by decide)
      · decide

/-! ## C10: aggregator totality -/

/-- Shape of a scraped table under which the dict-branch text accumulation
succeeds: when the first row is a dict, every following row is a dict too
(on a mixed table Python calls `.values()` on a list and raises). -/
def tableSafe : List TRow → Prop
  | TRow.rdict _ :: rest => ∀ r ∈ rest, ∃ vals, r = TRow.rdict vals
  | _ => True

/-- Every table of a web entry is well-shaped. -/
def webSafe (w : WebData) : Prop :=
  ∀ ts, w.tables = some ts → ∀ p ∈ ts, tableSafe p.2

/-- Scanning the PDF entries left to right (`bound` records whether an
earlier entry carried a truthy `source`): every entry with a truthy
`main_content` either carries a truthy `source` itself or follows one, so
the Python function-scoped local `pdf_info` is bound whenever it is read. -/
def pdfSafe : Bool → List PdfData → Prop
  | _, [] => True
  | bound, d :: t => (truthy d.main_content = true → truthy d.source = true ∨ bound = true) ∧
      pdfSafe (bound || truthy d.source) t

theorem bind_fold_ok {α β : Type} (e : Except MergeError α) (k : α → Except MergeError β)
    (he : ∃ a, e = Except.ok a) (hk : ∀ a, ∃ b, k a = Except.ok b) :
    ∃ b, e >>= k = Except.ok b := by
  obtain ⟨a, rfl⟩ := he
  obtain ⟨b, hb⟩ := hk a
  exact ⟨b, hb⟩

theorem dictRows_fold_ok : ∀ (rest : List TRow) (acc : Str),
    (∀ r ∈ rest, ∃ vals, r = TRow.rdict vals) →
    ∃ s, List.foldlM (fun acc r => do
        let t ← dictRowText r
        return acc ++ t ++ [' ']) acc rest = Except.ok s := by
  intro rest
  induction rest with
  | nil => intro acc _; exact ⟨acc, rfl⟩
  | cons r t ih =>
    intro acc h
    obtain ⟨vals, rfl⟩ := h r (List.mem_cons_self r t)
    obtain ⟨s, hs⟩ := ih (acc ++ joinSpace (vals.map Prod.snd) ++ [' '])
      (fun r hr => h r (List.mem_cons_of_mem _ hr))
    exact ⟨s, hs⟩

theorem tableTextDict_ok (vals : List (Str × Str)) (rest : List TRow)
    (h : ∀ r ∈ rest, ∃ v, r = TRow.rdict v) :
    ∃ s, tableTextDict (TRow.rdict vals :: rest) = Except.ok s := by
  obtain ⟨s, hs⟩ := dictRows_fold_ok rest ([] ++ joinSpace (vals.map Prod.snd) ++ [' ']) h
  exact ⟨s, hs⟩

theorem webTables_fold_ok : ∀ (ts : List (Str × List TRow)) (g : GrantData),
    (∀ p ∈ ts, tableSafe p.2) →
    ∃ g', List.foldlM (fun (g : GrantData) (p : Str × List TRow) => do
          let g := { g with tables := g.tables ++ [(p.1, p.2)] }
          match p.2 with
          | (TRow.rdict _) :: _ => do
            let tt ← tableTextDict p.2
            pure (appendContent (appendRaw g tt) (str "web_table_" ++ p.1) tt)
          | _ =>
            let tt := tableTextElse p.2
            pure (appendContent (appendRaw g tt) (str "web_table_" ++ p.1) tt)) g ts =
      Except.ok g' := by
  intro ts
  induction ts with
  | nil => intro g _; exact ⟨g, rfl⟩
  | cons p t ih =>
    intro g h
    have hp := h p (List.mem_cons_self p t)
    have hrest : ∀ q ∈ t, tableSafe q.2 := fun q hq => h q (List.mem_cons_of_mem _ hq)
    refine bind_fold_ok _ _ ?_ (fun a => ih a hrest)
    dsimp only
    cases hp2 : p.2 with
    | nil => exact ⟨_, rfl⟩
    | cons r rest =>
      cases r with
      | rdict vals =>
        rw [hp2] at hp
        obtain ⟨tt, htt⟩ := tableTextDict_ok vals rest hp
        dsimp only
        refine bind_fold_ok _ _ ?_ ?_
        · exact ⟨tt, htt⟩
        · exact fun a => ⟨_, rfl⟩
      | rcells cells => exact ⟨_, rfl⟩

/-- `structured_info` values that are not the scraper's dict shape. -/
def NonDictVal : StructVal → Prop
  | .vdict _ => False
  | _ => True

/-- No dict value among the accumulated `all_sections` entries. -/
def SectionsOk (secs : List (Str × StructVal)) : Prop :=
  ∀ p ∈ secs, NonDictVal p.2

/-- No dict value in a web entry's `structured_info` (the scraper's real
output violates this: it stores the `Documentazione_Specifica` dict
whenever extraction succeeds). -/
def structSafe (w : WebData) : Prop :=
  ∀ si, w.structured_info = some si → ∀ p ∈ si, NonDictVal p.2

theorem sectionsOk_setA {secs : List (Str × StructVal)} (h : SectionsOk secs)
    {v : StructVal} (hv : NonDictVal v) (k : Str) : SectionsOk (setA secs k v) := by
  unfold setA
  split
  · intro p hp
    obtain ⟨q, hq, hpq⟩ := List.mem_map.mp hp
    by_cases hqk : q.1 = k
    · rw [if_pos hqk] at hpq
      subst hpq
      exact hv
    · rw [if_neg hqk] at hpq
      subst hpq
      exact h q hq
  · intro p hp
    rcases List.mem_append.mp hp with hmem | hmem
    · exact h p hmem
    · rw [List.mem_singleton] at hmem
      subst hmem
      exact hv

/-- The web `structured_info` fold keeps `all_sections` dict-free when the
entry's values are. -/
theorem webSI_fold_sectionsOk : ∀ (si : List (Str × StructVal))
    (st : GrantData × List (Str × StructVal)), SectionsOk st.2 →
    (∀ p ∈ si, NonDictVal p.2) →
    SectionsOk ((si.foldl (fun (st2 : GrantData × List (Str × StructVal)) (p : Str × StructVal) =>
        let sections2 := setA st2.2 p.1 p.2
        match p.2 with
        | .vlist l =>
          (appendContent (appendRaw st2.1 (joinSpace l)) (str "web_structured_info_" ++ p.1)
            (joinSpace l), sections2)
        | .vstr s =>
          (appendContent (appendRaw st2.1 s) (str "web_structured_info_" ++ p.1) s, sections2)
        | .vdict _ => (st2.1, sections2)) st).2) := by
  intro si
  induction si with
  | nil => intro st h _; exact h
  | cons p t ih =>
    intro st hst hsi
    obtain ⟨pk, pv⟩ := p
    have hv := hsi (pk, pv) (List.mem_cons_self _ t)
    cases pv with
    | vlist l =>
      exact ih _ (sectionsOk_setA hst hv pk) (fun q hq => hsi q (List.mem_cons_of_mem _ hq))
    | vstr s =>
      exact ih _ (sectionsOk_setA hst hv pk) (fun q hq => hsi q (List.mem_cons_of_mem _ hq))
    | vdict dv => exact hv.elim

/-- The PDF `sections` fold stores only string values, keeping
`all_sections` dict-free. -/
theorem pdfSec_fold_sectionsOk : ∀ (ss : List (Str × Str))
    (st : GrantData × List (Str × StructVal)), SectionsOk st.2 →
    SectionsOk ((ss.foldl (fun (st2 : GrantData × List (Str × StructVal)) (p : Str × Str) =>
        (appendContent (appendRaw st2.1 p.2) (str "pdf_section_" ++ p.1) p.2,
         setA st2.2 p.1 (.vstr p.2))) st).2) := by
  intro ss
  induction ss with
  | nil => intro st h; exact h
  | cons p t ih =>
    intro st h
    exact ih _ (@sectionsOk_setA st.2 h (.vstr p.2) True.intro p.1)

theorem bind_fold_ok_post {α β : Type} (P : β → Prop) (e : Except MergeError α)
    (k : α → Except MergeError β) (he : ∃ a, e = Except.ok a)
    (hk : ∀ a, ∃ b, k a = Except.ok b ∧ P b) :
    ∃ b, e >>= k = Except.ok b ∧ P b := by
  obtain ⟨a, rfl⟩ := he
  exact hk a

theorem processWebData_ok (tok : Str → List Str) (st : GrantData × List (Str × StructVal))
    (d : WebData) (hd : webSafe d) (hsd : structSafe d) :
    ∃ st', processWebData tok st d = Except.ok st' ∧
      (SectionsOk st.2 → SectionsOk st'.2) := by
  obtain ⟨g0, secs0⟩ := st
  obtain ⟨ti, mc, si, ls, tabs⟩ := d
  cases tabs with
  | none =>
    cases si with
    | none => cases ls <;> exact ⟨_, rfl, fun h => h⟩
    | some sv =>
      cases ls <;> exact ⟨_, rfl, fun h => webSI_fold_sectionsOk sv _ h (hsd sv rfl)⟩
  | some ts =>
    have hts : ∀ p ∈ ts, tableSafe p.2 := hd ts rfl
    by_cases hne : ts = []
    · subst hne
      cases si with
      | none => cases ls <;> exact ⟨_, rfl, fun h => h⟩
      | some sv =>
        cases ls <;> exact ⟨_, rfl, fun h => webSI_fold_sectionsOk sv _ h (hsd sv rfl)⟩
    · cases si with
      | none =>
        cases ls <;>
          · unfold processWebData
            dsimp only
            rw [if_pos hne]
            refine bind_fold_ok_post _ _ _ ?_ ?_
            · exact webTables_fold_ok ts _ hts
            · exact fun a => ⟨_, rfl, fun h => h⟩
      | some sv =>
        cases ls <;>
          · unfold processWebData
            dsimp only
            rw [if_pos hne]
            refine bind_fold_ok_post _ _ _ ?_ ?_
            · exact webTables_fold_ok ts _ hts
            · exact fun a => ⟨_, rfl, fun h => webSI_fold_sectionsOk sv _ h (hsd sv rfl)⟩

theorem webFold_ok (tok : Str → List Str) :
    ∀ (l : List WebData) (st : GrantData × List (Str × StructVal)),
      (∀ w ∈ l, webSafe w) → (∀ w ∈ l, structSafe w) → SectionsOk st.2 →
      ∃ st', List.foldlM (processWebData tok) st l = Except.ok st' ∧ SectionsOk st'.2 := by
  intro l
  induction l with
  | nil => intro st _ _ hsec; exact ⟨st, rfl, hsec⟩
  | cons d t ih =>
    intro st hw hs hsec
    obtain ⟨st1, h1, hs1⟩ := processWebData_ok tok st d (hw d (List.mem_cons_self d t))
      (hs d (List.mem_cons_self d t))
    have hstep : List.foldlM (processWebData tok) st (d :: t) =
        processWebData tok st d >>= fun s => List.foldlM (processWebData tok) s t := rfl
    rw [hstep, h1]
    exact ih st1 (fun w hw' => hw w (List.mem_cons_of_mem d hw'))
      (fun w hw' => hs w (List.mem_cons_of_mem d hw')) (hs1 hsec)

theorem processPdfData_ok (tok : Str → List Str) (g : GrantData)
    (secs : List (Str × StructVal)) (pi : Option PdfInfoRec) (d : PdfData)
    (h : truthy d.main_content = true → truthy d.source = true ∨ pi.isSome = true) :
    ∃ st' : GrantData × List (Str × StructVal) × Option PdfInfoRec,
      processPdfData tok (g, secs, pi) d = Except.ok st' ∧
      st'.2.2.isSome = (truthy d.source || pi.isSome) ∧
      (SectionsOk secs → SectionsOk st'.2.1) := by
  cases hs : truthy d.source with
  | true =>
    cases hm : truthy d.main_content with
    | true =>
      unfold processPdfData
      dsimp only
      rw [hs, hm]
      refine ⟨_, rfl, rfl, ?_⟩
      intro hsecs
      cases hsec : d.sections with
      | none => exact hsecs
      | some ss => exact pdfSec_fold_sectionsOk ss _ hsecs
    | false =>
      unfold processPdfData
      dsimp only
      rw [hs, hm]
      refine ⟨_, rfl, rfl, ?_⟩
      intro hsecs
      cases hsec : d.sections with
      | none => exact hsecs
      | some ss => exact pdfSec_fold_sectionsOk ss _ hsecs
  | false =>
    cases hm : truthy d.main_content with
    | false =>
      unfold processPdfData
      dsimp only
      rw [hs, hm]
      refine ⟨_, rfl, rfl, ?_⟩
      intro hsecs
      cases hsec : d.sections with
      | none => exact hsecs
      | some ss => exact pdfSec_fold_sectionsOk ss _ hsecs
    | true =>
      obtain ⟨pirec, hpi⟩ := Option.isSome_iff_exists.mp ((h hm).resolve_left (by simp [hs]))
      subst hpi
      unfold processPdfData
      dsimp only
      rw [hs, hm]
      refine ⟨_, rfl, rfl, ?_⟩
      intro hsecs
      cases hsec : d.sections with
      | none => exact hsecs
      | some ss => exact pdfSec_fold_sectionsOk ss _ hsecs

theorem pdfFold_ok (tok : Str → List Str) :
    ∀ (l : List PdfData) (b : Bool) (g : GrantData) (secs : List (Str × StructVal))
      (pi : Option PdfInfoRec), pdfSafe b l → (b = true → pi.isSome = true) →
      SectionsOk secs →
      ∃ st', List.foldlM (processPdfData tok) (g, secs, pi) l = Except.ok st' ∧
        SectionsOk st'.2.1 := by
  intro l
  induction l with
  | nil => intro b g secs pi _ _ hsec; exact ⟨(g, secs, pi), rfl, hsec⟩
  | cons d t ih =>
    intro b g secs pi hsafe hb hsec
    obtain ⟨h1, h2⟩ := hsafe
    obtain ⟨⟨sg, ssecs, spi⟩, hst1, hpi, hsp⟩ := processPdfData_ok tok g secs pi d
      (fun hm => (h1 hm).imp id hb)
    have hstep : List.foldlM (processPdfData tok) (g, secs, pi) (d :: t) =
        processPdfData tok (g, secs, pi) d >>=
          fun st => List.foldlM (processPdfData tok) st t := rfl
    rw [hstep, hst1]
    show ∃ st', List.foldlM (processPdfData tok) (sg, ssecs, spi) t = Except.ok st' ∧
      SectionsOk st'.2.1
    refine ih (b || truthy d.source) sg ssecs spi h2 (fun hb' => ?_) (hsp hsec)
    have hpi' : spi.isSome = (truthy d.source || pi.isSome) := hpi
    rw [hpi']
    cases hsrc : truthy d.source with
    | true => rw [Bool.true_or]
    | false =>
      rw [Bool.false_or]
      apply hb
      simpa [hsrc] using hb'

/-- The categorisation pass succeeds exactly on dict-free `all_sections`. -/
theorem categorizeSections_ok : ∀ (secs : List (Str × StructVal)), SectionsOk secs →
    ∀ g : GrantData, ∃ g', categorizeSections g secs = Except.ok g' := by
  intro secs
  induction secs with
  | nil => intro _ g; exact ⟨g, rfl⟩
  | cons p t ih =>
    intro h g
    obtain ⟨pk, pv⟩ := p
    unfold categorizeSections
    rw [List.foldlM_cons]
    refine bind_fold_ok _ _ ?_ (fun a => ih (fun q hq => h q (List.mem_cons_of_mem _ hq)) a)
    cases pv with
    | vlist l =>
      dsimp only
      cases hcat : categorize_information pk l with
      | none => exact ⟨_, rfl⟩
      | some c => exact ⟨_, rfl⟩
    | vstr s =>
      dsimp only
      cases hcat : categorize_information pk [s] with
      | none => exact ⟨_, rfl⟩
      | some c => exact ⟨_, rfl⟩
    | vdict dv => exact (h (pk, StructVal.vdict dv) (List.mem_cons_self _ t)).elim

/-- **C10** (amended): `merge_grant_data` returns a merged dictionary
without raising whenever (a) in every scraped web table whose first row is
a dict every row is a dict, (b) every PDF entry carrying a truthy
`main_content` carries a truthy `source` or is preceded by an entry that
does, and (c) no web entry's `structured_info` holds a dict value.
Outside (b) the read of the function-scoped local `pdf_info` raises
`UnboundLocalError`; outside (c) the categorisation tail raises
`TypeError` — and the scraper violates (c) on every successfully scraped
page, since it unconditionally stores the dict-valued
`Documentazione_Specifica` entry.  The claimed totality at the public
interface is therefore false (see the counterexample). -/
theorem merge_totality (tok : Str → List Str) (web_data : List WebData)
    (pdf_data : List PdfData) (hweb : ∀ w ∈ web_data, webSafe w)
    (hstruct : ∀ w ∈ web_data, structSafe w) (hpdf : pdfSafe false pdf_data) :
    ∃ g, merge_grant_data tok web_data pdf_data = Except.ok g := by
  by_cases hempty : web_data = [] ∧ pdf_data = []
  · obtain ⟨rfl, rfl⟩ := hempty
    exact ⟨_, rfl⟩
  · unfold merge_grant_data
    rw [if_neg hempty]
    dsimp only
    obtain ⟨⟨g1, s1⟩, h1, hsec1⟩ := webFold_ok tok web_data
      ({ title := resolveTitle web_data pdf_data }, ([] : List (Str × StructVal))) hweb hstruct
      (fun q hq => nomatch hq)
    obtain ⟨⟨g2, s2, pi2⟩, h2, hsec2⟩ := pdfFold_ok tok pdf_data false g1 s1 none hpdf
      (fun hf => nomatch hf) hsec1
    obtain ⟨g3, h3⟩ := categorizeSections_ok s2 hsec2 g2
    rw [h1]
    show ∃ g, List.foldlM (processPdfData tok) (g1, s1, none) pdf_data >>=
      (fun st => categorizeSections st.1 st.2.1 >>= fun gg => Except.ok (dedupCategories gg)) =
      Except.ok g
    rw [h2]
    show ∃ g, categorizeSections g2 s2 >>= (fun gg => Except.ok (dedupCategories gg)) = Except.ok g
    rw [h3]
    exact ⟨_, rfl⟩

/-- Witness for `merge_totality`: one sourced PDF entry followed by one
carrying only content; the merge succeeds. -/
theorem merge_totality_witness :
    ∃ g, merge_grant_data splitSentences []
      [{ source := some (str "u"), filename := some (str "bando.pdf"),
         main_content := some (str "Serve la visura camerale.") },
       { main_content := some (str "Allegare il DURC.") }] = Except.ok g :=
  merge_totality splitSentences [] _ (fun _ hw => nomatch hw) (fun _ hw => nomatch hw)
    ⟨fun _ => Or.inl rfl, fun _ => Or.inr rfl, trivial⟩

/-- **C10** counterexample: a single PDF entry with `main_content` but no
`source` reaches the read of the unbound local `pdf_info`
(`UnboundLocalError`); and a web entry carrying the scraper's dict-valued
`Documentazione_Specifica` — which the scraper emits unconditionally —
reaches the `TypeError` of the categorisation tail.  In both cases the
merge raises instead of returning a dictionary. -/
theorem merge_totality_counterexample :
    merge_grant_data splitSentences []
      [{ main_content := some (str "Il testo del bando.") }] =
      Except.error MergeError.unboundPdfInfo ∧
    merge_grant_data splitSentences
      [{ structured_info := some [(str "Documentazione_Specifica",
           StructVal.vdict [(str "business plan",
             [str "È richiesto il business plan completo."])])] }] [] =
      Except.error MergeError.dictValueTypeError :=
  ⟨rfl, rfl⟩
